import Mathlib

set_option autoImplicit false

namespace Teacup

/-! # Embedding of `main.cpp`

Part 1 is the OBJ loader `loadOBJ` (strings are `List Char`, `size_t` values are
naturals reduced modulo `2 ^ 64`, `int` values are integers checked against the
32-bit range, a C++ exception or an out-of-range `operator[]` is `none`).
Part 2 is the per-frame input handling of `main`. -/

/-! ## Library primitives used by `loadOBJ` -/

/-- `std::string::npos`: the largest `size_t`. -/
def npos : Nat := 2 ^ 64 - 1

/-- Addition of two `size_t` values. -/
def sizeAdd (a b : Nat) : Nat := (a + b) % 2 ^ 64

/-- Subtraction of two `size_t` values (both below `2 ^ 64`). -/
def sizeSub (a b : Nat) : Nat := (a + 2 ^ 64 - b) % 2 ^ 64

/-- `s.find(c, pos)` for a one-character pattern: the first position at or
after `pos` holding `c`, or `npos`. -/
def strFind (s : List Char) (c : Char) (pos : Nat) : Nat :=
  let k := (s.drop pos).findIdx (fun d => d == c)
  if pos + k < s.length then pos + k else npos

/-- `s.substr(pos, count)`: throws (`none`) when `pos` exceeds the size. -/
def substr (s : List Char) (pos count : Nat) : Option (List Char) :=
  if pos ≤ s.length then some ((s.drop pos).take count) else none

/-- The `isspace` test of the "C" locale. -/
def isSpace (c : Char) : Bool :=
  c.toNat == 32 || (9 ≤ c.toNat && c.toNat ≤ 13)

/-- A decimal digit character. -/
def isDigit (c : Char) : Bool :=
  48 ≤ c.toNat && c.toNat ≤ 57

/-- Value of a run of decimal digit characters, most significant first. -/
def decValue (ds : List Char) : Nat :=
  ds.foldl (fun acc c => 10 * acc + (c.toNat - 48)) 0

/-- Smallest `int`. -/
def intMin : Int := -2147483648

/-- Largest `int`. -/
def intMax : Int := 2147483647

/-- `std::stoi(s)`: skip leading white space, read an optional sign and the
longest run of digits; `std::invalid_argument` when there is no digit and
`std::out_of_range` when the value does not fit an `int` are both `none`. -/
def stoi (s : List Char) : Option Int :=
  let body := s.dropWhile isSpace
  let signed : Bool × List Char :=
    match body with
    | c :: rest =>
      if c.toNat == 45 then (true, rest)
      else if c.toNat == 43 then (false, rest)
      else (false, body)
    | [] => (false, body)
  let ds := signed.2.takeWhile isDigit
  if ds.isEmpty then none
  else
    let v : Int := if signed.1 then -(decValue ds : Int) else (decValue ds : Int)
    if intMin ≤ v ∧ v ≤ intMax then some v else none

/-- Subtraction on `int`; signed overflow is undefined (`none`). -/
def intSub (a b : Int) : Option Int :=
  if intMin ≤ a - b ∧ a - b ≤ intMax then some (a - b) else none

/-- `v[i]` for a `std::vector` indexed by an `int` converted to `size_t`:
a negative or too large index is an out-of-range access (`none`). -/
def vecAt {α : Type} (v : List α) (i : Int) : Option α :=
  if 0 ≤ i then v[i.toNat]? else none

/-- The extraction loop `while (ss >> token)`: maximal runs of non-space
characters, `cur` being the token under construction. -/
def splitTokens : List Char → List Char → List (List Char)
  | [], cur => if cur.isEmpty then [] else [cur]
  | c :: cs, cur =>
    if isSpace c then
      (if cur.isEmpty then splitTokens cs [] else cur :: splitTokens cs [])
    else splitTokens cs (cur ++ [c])

/-! ## Data model -/

/-- `glm::vec3` over a component type `F` standing for `float`. -/
structure Vec3 (F : Type) where
  x : F
  y : F
  z : F
  deriving DecidableEq

/-- `glm::vec3::operator==`: component-wise `==`. -/
def Vec3.eq {F : Type} [BEq F] (a b : Vec3 F) : Bool :=
  a.x == b.x && a.y == b.y && a.z == b.z

/-- `struct Vertex`. -/
structure Vertex (F : Type) where
  position : Vec3 F
  normal : Vec3 F
  deriving DecidableEq

/-- `Vertex::operator==`. -/
def Vertex.eq {F : Type} [BEq F] (a b : Vertex F) : Bool :=
  a.position.eq b.position && a.normal.eq b.normal

/-- `struct Mesh`. -/
structure Mesh (F : Type) where
  vertices : List (Vertex F)
  indices : List Nat
  edgeIndices : List Nat
  deriving DecidableEq

/-- The local variables of `loadOBJ` that live across lines. -/
structure LoadState (F : Type) where
  tempPositions : List (Vec3 F)
  tempNormals : List (Vec3 F)
  mesh : Mesh F
  deriving DecidableEq

/-! ## `loadOBJ` -/

/-- Lines 242-247: split a corner descriptor at its slashes and read the
zero-based position and normal indices. -/
def cornerIndices (face : List Char) : Option (Int × Int) := do
  let pos1 := strFind face '/' 0
  let pos2 := strFind face '/' (sizeAdd pos1 1)
  let a ← substr face 0 pos1
  let pa ← stoi a
  let posIdx ← intSub pa 1
  let b ← substr face (sizeAdd pos2 1) npos
  let nb ← stoi b
  let normIdx ← intSub nb 1
  some (posIdx, normIdx)

/-- Lines 254-264: `std::find` over the unique vertices, then either append
the vertex and its new index or reuse the index found; an index is stored as
`unsigned int`. -/
def pushVertex {F : Type} [BEq F] (m : Mesh F) (vertex : Vertex F) : Mesh F :=
  let it := m.vertices.findIdx (fun v => v.eq vertex)
  if it = m.vertices.length then
    { m with
      vertices := m.vertices ++ [vertex]
      indices := m.indices ++ [sizeSub (m.vertices.length + 1) 1 % 2 ^ 32] }
  else
    { m with indices := m.indices ++ [it % 2 ^ 32] }

/-- Lines 245-252: the candidate vertex of a corner descriptor, resolved
against the positions and normals read so far. -/
def candidate {F : Type} (tempPositions tempNormals : List (Vec3 F)) (face : List Char) :
    Option (Vertex F) := do
  let (posIdx, normIdx) ← cornerIndices face
  let position ← vecAt tempPositions posIdx
  let normal ← vecAt tempNormals normIdx
  some { position := position, normal := normal }

/-- Lines 238-264, the body of the `j` loop for the token index `idx`. -/
def emitCorner {F : Type} [BEq F] (st : LoadState F) (faceTokens : List (List Char))
    (idx : Nat) : Option (LoadState F) := do
  let face ← faceTokens[idx]?
  let vertex ← candidate st.tempPositions st.tempNormals face
  some { st with mesh := pushVertex st.mesh vertex }

/-- Lines 231-266: the loop `for (i; i < bound; i++)`, `iters` being the number
of iterations left, with the `j` loop unrolled to the corners `0`, `i`, `i + 1`. -/
def faceLoop {F : Type} [BEq F] (faceTokens : List (List Char)) :
    Nat → Nat → LoadState F → Option (LoadState F)
  | 0, _, st => some st
  | iters + 1, i, st => do
    let st1 ← emitCorner st faceTokens 0
    let st2 ← emitCorner st1 faceTokens i
    let st3 ← emitCorner st2 faceTokens (sizeAdd i 1)
    faceLoop faceTokens iters (sizeAdd i 1) st3

/-- The loop bound `faceTokens.size() - 1`, a `size_t`. -/
def faceBound (faceTokens : List (List Char)) : Nat :=
  sizeSub faceTokens.length 1

/-- Lines 230-266: fan triangulation of one face record; `i` runs from `1`
while `i < faceBound`. -/
def triangulateFace {F : Type} [BEq F] (st : LoadState F) (faceTokens : List (List Char)) :
    Option (LoadState F) :=
  faceLoop faceTokens (faceBound faceTokens - 1) 1 st

/-- Lines 209-267: one line of the file. `readVec3` is the extraction
`ss >> v.x >> v.y >> v.z` of three floats from the rest of the line. -/
def processLine {F : Type} [BEq F] (readVec3 : List Char → Vec3 F) (st : LoadState F)
    (line : List Char) : Option (LoadState F) :=
  if line.take 2 = ['v', ' '] then
    some { st with tempPositions := st.tempPositions ++ [readVec3 (line.drop 2)] }
  else if line.take 3 = ['v', 'n', ' '] then
    some { st with tempNormals := st.tempNormals ++ [readVec3 (line.drop 3)] }
  else if line.take 2 = ['f', ' '] then
    triangulateFace st (splitTokens (line.drop 2) [])
  else some st

/-- The `while (std::getline(file, line))` loop. -/
def loadLines {F : Type} [BEq F] (readVec3 : List Char → Vec3 F) :
    LoadState F → List (List Char) → Option (LoadState F)
  | st, [] => some st
  | st, line :: rest => do
    let st1 ← processLine readVec3 st line
    loadLines readVec3 st1 rest

/-- The state at entry of the reading loop. -/
def initLoad (F : Type) : LoadState F :=
  { tempPositions := [], tempNormals := [],
    mesh := { vertices := [], indices := [], edgeIndices := [] } }

/-- `loadOBJ`, applied to the lines of the file. -/
def loadOBJ {F : Type} [BEq F] (readVec3 : List Char → Vec3 F) (lines : List (List Char)) :
    Option (Mesh F) :=
  (loadLines readVec3 (initLoad F) lines).map (fun st => st.mesh)

/-! ## Specification-side definitions for the loader -/

/-- The token indices of `n` fan triangles `(0, i, i + 1)`, `(0, i + 1, i + 2)`, ... -/
def fanFrom : Nat → Nat → List Nat
  | _, 0 => []
  | i, n + 1 => 0 :: i :: (i + 1) :: fanFrom (i + 1) n

/-- Fan triangulation of a face with `k` corners, in the words of the
specification: the triangles `(corner 0, corner i, corner (i + 1))` for
`i = 1 … k − 2`, as token indices in emission order. -/
def fanIndices (k : Nat) : List Nat := fanFrom 1 (k - 2)

/-- The candidate vertex of the corner at token index `idx`. -/
def resolveCorner {F : Type} (tempPositions tempNormals : List (Vec3 F))
    (faceTokens : List (List Char)) (idx : Nat) : Option (Vertex F) := do
  let face ← faceTokens[idx]?
  candidate tempPositions tempNormals face

/-- The candidate vertices of a list of corners, when all of them resolve. -/
def resolveAll {F : Type} (tempPositions tempNormals : List (Vec3 F))
    (faceTokens : List (List Char)) : List Nat → Option (List (Vertex F))
  | [] => some []
  | idx :: rest => do
    let v ← resolveCorner tempPositions tempNormals faceTokens idx
    let vs ← resolveAll tempPositions tempNormals faceTokens rest
    some (v :: vs)

/-- The un-deduplicated corner list of a source, in the words of the
specification: position and normal records accumulate in file order, and each
face record contributes the candidates of its fan triangles. -/
def cornerList {F : Type} (readVec3 : List Char → Vec3 F) :
    List (Vec3 F) → List (Vec3 F) → List (List Char) → Option (List (Vertex F))
  | _, _, [] => some []
  | tp, tn, line :: rest =>
    if line.take 2 = ['v', ' '] then
      cornerList readVec3 (tp ++ [readVec3 (line.drop 2)]) tn rest
    else if line.take 3 = ['v', 'n', ' '] then
      cornerList readVec3 tp (tn ++ [readVec3 (line.drop 3)]) rest
    else if line.take 2 = ['f', ' '] then do
      let cs ← resolveAll tp tn (splitTokens (line.drop 2) [])
        (fanIndices (splitTokens (line.drop 2) []).length)
      let more ← cornerList readVec3 tp tn rest
      some (cs ++ more)
    else cornerList readVec3 tp tn rest

/-- Deduplication in first-seen order: a candidate is kept when no vertex kept
before it (or in `seen`) compares equal to it. -/
def firstSeenFrom {F : Type} [BEq F] : List (Vertex F) → List (Vertex F) → List (Vertex F)
  | _, [] => []
  | seen, c :: cs =>
    if seen.any (fun v => v.eq c) then firstSeenFrom seen cs
    else c :: firstSeenFrom (seen ++ [c]) cs

/-- The index list of `m` holds, for each candidate of `cs` in order, the
position of the first vertex of `m` that compares equal to it (as an
`unsigned int`), and every candidate has such a vertex. -/
def Tracks {F : Type} [BEq F] (m : Mesh F) (cs : List (Vertex F)) : Prop :=
  (∀ c ∈ cs, ∃ u ∈ m.vertices, u.eq c = true) ∧
  m.indices = cs.map (fun c => m.vertices.findIdx (fun u => u.eq c) % 2 ^ 32)

/-- A corner descriptor that parses and references a position and a normal in
range of `np` positions and `nn` normals. -/
def cornerOk (np nn : Nat) (face : List Char) : Bool :=
  match cornerIndices face with
  | some (p, n) => decide (0 ≤ p ∧ p < (np : Int) ∧ 0 ≤ n ∧ n < (nn : Int))
  | none => false

/-- Every face record has at least one corner (and a token count that is a
`size_t`), and each of its corners references a position index and a normal
index in range of the records read so far (`np` positions, `nn` normals). -/
def facesInRange : Nat → Nat → List (List Char) → Bool
  | _, _, [] => true
  | np, nn, line :: rest =>
    if line.take 2 = ['v', ' '] then facesInRange (np + 1) nn rest
    else if line.take 3 = ['v', 'n', ' '] then facesInRange np (nn + 1) rest
    else if line.take 2 = ['f', ' '] then
      decide (1 ≤ (splitTokens (line.drop 2) []).length) &&
      decide ((splitTokens (line.drop 2) []).length < 2 ^ 64) &&
      (splitTokens (line.drop 2) []).all (cornerOk np nn) &&
      facesInRange np nn rest
    else facesInRange np nn rest

/-- Every position and normal record read compares equal to itself: no
component is a NaN. -/
def noNaN {F : Type} [BEq F] (readVec3 : List Char → Vec3 F) : List (List Char) → Bool
  | [] => true
  | line :: rest =>
    if line.take 2 = ['v', ' '] then
      (readVec3 (line.drop 2)).eq (readVec3 (line.drop 2)) && noNaN readVec3 rest
    else if line.take 3 = ['v', 'n', ' '] then
      (readVec3 (line.drop 3)).eq (readVec3 (line.drop 3)) && noNaN readVec3 rest
    else noNaN readVec3 rest

/-- A well-formed geometry source. -/
def wellFormed {F : Type} [BEq F] (readVec3 : List Char → Vec3 F)
    (lines : List (List Char)) : Bool :=
  facesInRange 0 0 lines && noNaN readVec3 lines

/-- An optionally signed run of digits, as written in a corner descriptor. -/
def signedDigits (neg : Bool) (ds : List Char) : List Char :=
  if neg then '-' :: ds else ds

/-- The integer written by `signedDigits neg ds`. -/
def signedValue (neg : Bool) (ds : List Char) : Int :=
  if neg then -(decValue ds : Int) else (decValue ds : Int)

/-- A reader of integer records, for concrete sources: three tokens read with
`stoi`. -/
def readInts (s : List Char) : Vec3 Int :=
  match (splitTokens s []).map (fun t => (stoi t).getD 0) with
  | [a, b, c] => { x := a, y := b, z := c }
  | _ => { x := 0, y := 0, z := 0 }

/-! ## Per-frame input handling of `main` -/

/-- The arithmetic of `float`: each operation returns the `float` result of
its operands, `lit n d` is the `float` written as the decimal literal `n / d`.
Comparisons are those of the order on `F`. -/
structure FloatOps (F : Type) where
  add : F → F → F
  sub : F → F → F
  mul : F → F → F
  lit : Nat → Nat → F

/-- Number of binary digits of `n`, by halving at most `fuel` times. -/
def bitLength : Nat → Nat → Nat
  | 0, _ => 0
  | fuel + 1, n => if n = 0 then 0 else bitLength fuel (n / 2) + 1

/-- Position of the leading binary digit of `n`: `⌊log₂ n⌋` for `0 < n`. -/
def floorLog2 (n : Nat) : Nat := bitLength n n - 1

/-- Round a rational to the nearest number with a 24-bit significand, ties to
an even significand: IEEE-754 binary32 rounding on the normal range (the
exponent is not bounded, so overflow, subnormals and NaN are not modelled). -/
def roundToNearest (q : ℚ) : ℚ :=
  if q.num = 0 then 0 else
    let n := q.num.natAbs
    let d := q.den
    let e0 : Int := (floorLog2 n : Int) - (floorLog2 d : Int)
    let e : Int := if n * 2 ^ (-e0).toNat < d * 2 ^ e0.toNat then e0 - 1 else e0
    let k : Int := e - 23
    let num := n * 2 ^ (-k).toNat
    let den := d * 2 ^ k.toNat
    let f := num / den
    let r2 := 2 * (num % den)
    let m := if r2 < den then f else if den < r2 then f + 1 else if f % 2 = 0 then f else f + 1
    let mag : ℚ := mkRat ((m * 2 ^ k.toNat : Nat) : Int) (2 ^ (-k).toNat)
    if q.num < 0 then -mag else mag

/-- The binary exponent chosen by `roundToNearest` for `n / d`. -/
def roundExp (n d : Nat) : Int :=
  let e0 : Int := (floorLog2 n : Int) - (floorLog2 d : Int)
  if n * 2 ^ (-e0).toNat < d * 2 ^ e0.toNat then e0 - 1 else e0

/-- The integer nearest to `num / den`, ties to even: the significand chosen
by `roundToNearest`. -/
def roundMant (num den : Nat) : Nat :=
  if 2 * (num % den) < den then num / den
  else if den < 2 * (num % den) then num / den + 1
  else if (num / den) % 2 = 0 then num / den else num / den + 1

/-- The binary32 arithmetic of the program: a `float` is the rational it
denotes and every operation rounds its exact result. -/
def binary32 : FloatOps ℚ where
  add a b := roundToNearest (a + b)
  sub a b := roundToNearest (a - b)
  mul a b := roundToNearest (a * b)
  lit n d := roundToNearest (mkRat n d)

/-- Arithmetic without rounding, over any field. -/
def exactOps (K : Type) [Field K] : FloatOps K where
  add a b := a + b
  sub a b := a - b
  mul a b := a * b
  lit n d := (n : K) / (d : K)

/-- `glm::max(x, y)`: `(x < y) ? y : x`. -/
def glmMax {F : Type} [LinearOrder F] (x y : F) : F := if x < y then y else x

/-- `glm::min(x, y)`: `(y < x) ? y : x`. -/
def glmMin {F : Type} [LinearOrder F] (x y : F) : F := if y < x then y else x

/-- `glm::clamp(x, minVal, maxVal)`: `min(max(x, minVal), maxVal)`. -/
def clamp {F : Type} [LinearOrder F] (x minVal maxVal : F) : F :=
  glmMin (glmMax x minVal) maxVal

/-- The keys polled by `glfwGetKey` in one frame (`true` = `GLFW_PRESS`). -/
structure Keys where
  escape : Bool
  keyA : Bool
  keyD : Bool
  keyW : Bool
  keyS : Bool
  keyQ : Bool
  keyE : Bool
  keyR : Bool
  keyG : Bool
  keyB : Bool
  keyV : Bool
  keyN : Bool
  keyT : Bool
  keyY : Bool
  deriving DecidableEq

/-- No key held. -/
def noKeys : Keys :=
  { escape := false, keyA := false, keyD := false, keyW := false, keyS := false,
    keyQ := false, keyE := false, keyR := false, keyG := false, keyB := false,
    keyV := false, keyN := false, keyT := false, keyY := false }

/-- Only the rotate-left key `A` held. -/
def onlyA : Keys := { noKeys with keyA := true }

/-- Only the rotate-right key `D` held. -/
def onlyD : Keys := { noKeys with keyD := true }

/-- Only the channel selector `G` held. -/
def onlyG : Keys := { noKeys with keyG := true }

/-- Only the increase key `T` held. -/
def onlyT : Keys := { noKeys with keyT := true }

/-- The three program handles returned by `createShaderProgram`. -/
structure Shaders where
  mainShader : Nat
  blinnPhongShaderAlt : Nat
  gouraudShadingAlt : Nat
  deriving DecidableEq

/-- The variables of `main` that the input handling reads and writes. -/
structure ViewState (F : Type) where
  shouldClose : Bool
  currentShader : Nat
  redT : F
  blueT : F
  greenT : F
  objectColor : Vec3 F
  currentObjectColourToggle : Char
  shininess : F
  angleY : F
  angleZ : F
  cameraDistance : F
  deriving DecidableEq

/-- `rotationSpeed = 2.0f`. -/
def rotationSpeed {F : Type} (ops : FloatOps F) : F := ops.lit 2 1

/-- `zoomSpeed = 10.0f`. -/
def zoomSpeed {F : Type} (ops : FloatOps F) : F := ops.lit 10 1

/-- Lines 385-405: the state before the first frame. -/
def initView {F : Type} (ops : FloatOps F) (sh : Shaders) : ViewState F :=
  { shouldClose := false
    currentShader := sh.mainShader
    redT := ops.lit 1 1
    blueT := ops.lit 0 1
    greenT := ops.lit 0 1
    objectColor := { x := ops.lit 1 1, y := ops.lit 0 1, z := ops.lit 0 1 }
    currentObjectColourToggle := 'R'
    shininess := ops.lit 32 1
    angleY := ops.lit 0 1
    angleZ := ops.lit 0 1
    cameraDistance := ops.lit 4156921938165306 100000000000000 }

/-- Lines 413-415. -/
def handleEscape {F : Type} (st : ViewState F) (k : Keys) : ViewState F :=
  if k.escape then { st with shouldClose := true } else st

/-- Lines 417-425: rotation controls. -/
def handleRotation {F : Type} (ops : FloatOps F) (st : ViewState F) (k : Keys)
    (deltaTime : F) : ViewState F :=
  let st1 := if k.keyA then
    { st with angleY := ops.add st.angleY (ops.mul (rotationSpeed ops) deltaTime) } else st
  let st2 := if k.keyD then
    { st1 with angleY := ops.sub st1.angleY (ops.mul (rotationSpeed ops) deltaTime) } else st1
  let st3 := if k.keyW then
    { st2 with angleZ := ops.add st2.angleZ (ops.mul (rotationSpeed ops) deltaTime) } else st2
  if k.keyS then
    { st3 with angleZ := ops.sub st3.angleZ (ops.mul (rotationSpeed ops) deltaTime) } else st3

/-- Lines 427-431: zoom controls. -/
def handleZoom {F : Type} (ops : FloatOps F) (st : ViewState F) (k : Keys)
    (deltaTime : F) : ViewState F :=
  let st1 := if k.keyQ then
    { st with cameraDistance := ops.sub st.cameraDistance (ops.mul (zoomSpeed ops) deltaTime) }
    else st
  if k.keyE then
    { st1 with cameraDistance := ops.add st1.cameraDistance (ops.mul (zoomSpeed ops) deltaTime) }
    else st1

/-- Lines 433-442: colour channel selection. -/
def handleColourToggle {F : Type} (st : ViewState F) (k : Keys) : ViewState F :=
  let st1 := if k.keyR then { st with currentObjectColourToggle := 'R' } else st
  let st2 := if k.keyG then { st1 with currentObjectColourToggle := 'G' } else st1
  if k.keyB then { st2 with currentObjectColourToggle := 'B' } else st2

/-- Lines 444-456: shader selection. -/
def handleShader {F : Type} (ops : FloatOps F) (sh : Shaders) (st : ViewState F)
    (k : Keys) : ViewState F :=
  let st1 := if k.keyV then
    { st with currentShader := sh.mainShader, shininess := ops.lit 32 1 } else st
  let st2 := if k.keyB then
    { st1 with currentShader := sh.blinnPhongShaderAlt, shininess := ops.lit 45 1 } else st1
  if k.keyN then
    { st2 with currentShader := sh.gouraudShadingAlt, shininess := ops.lit 20 1 } else st2

/-- The `switch` of lines 461-472 (`step = 0.01f` added) and of lines 477-488
(`step` subtracted), `op` being the float addition or subtraction. -/
def adjustChannel {F : Type} (op : F → F → F) (step : F) (st : ViewState F) : ViewState F :=
  if st.currentObjectColourToggle = 'R' then { st with redT := op st.redT step }
  else if st.currentObjectColourToggle = 'G' then { st with greenT := op st.greenT step }
  else if st.currentObjectColourToggle = 'B' then { st with blueT := op st.blueT step }
  else st

/-- Lines 458-494: colour adjustment and the refresh of `objectColor`. -/
def handleColour {F : Type} (ops : FloatOps F) (st : ViewState F) (k : Keys) : ViewState F :=
  let st1 := if k.keyT then adjustChannel ops.add (ops.lit 1 100) st else st
  let st2 := if k.keyY then adjustChannel ops.sub (ops.lit 1 100) st1 else st1
  { st2 with objectColor := { x := st2.redT, y := st2.greenT, z := st2.blueT } }

/-- Lines 496-497: the clamp of the camera distance. -/
def clampDistance {F : Type} [LinearOrder F] (ops : FloatOps F) (st : ViewState F) :
    ViewState F :=
  { st with cameraDistance := clamp st.cameraDistance (ops.lit 3 2) (ops.lit 40 1) }

/-- Lines 413-497: the state update of one iteration of the render loop, for
the keys held and the frame duration `deltaTime`. -/
def frame {F : Type} [LinearOrder F] (ops : FloatOps F) (sh : Shaders) (st : ViewState F)
    (k : Keys) (deltaTime : F) : ViewState F :=
  clampDistance ops
    (handleColour ops
      (handleShader ops sh
        (handleColourToggle
          (handleZoom ops (handleRotation ops (handleEscape st k) k deltaTime) k deltaTime) k) k) k)

/-- A run of the render loop over a sequence of frames (keys held, duration). -/
def runFrames {F : Type} [LinearOrder F] (ops : FloatOps F) (sh : Shaders) (st : ViewState F)
    (frames : List (Keys × F)) : ViewState F :=
  frames.foldl (fun s f => frame ops sh s f.1 f.2) st


/-- The values of `angleY` after each frame of a run, in order. -/
def angleYTrace {F : Type} [LinearOrder F] (ops : FloatOps F) (sh : Shaders) :
    ViewState F → List (Keys × F) → List F
  | _, [] => []
  | st, f :: fs =>
    (frame ops sh st f.1 f.2).angleY :: angleYTrace ops sh (frame ops sh st f.1 f.2) fs

/-! ## Loader: size arithmetic and the triangulation loop -/

section Loader

variable {F : Type} [BEq F]

theorem sizeAdd_one (i : Nat) (h : i + 1 < 2 ^ 64) : sizeAdd i 1 = i + 1 :=
  Nat.mod_eq_of_lt h

theorem faceBound_lt (tokens : List (List Char)) : faceBound tokens < 2 ^ 64 :=
  Nat.mod_lt _ (by decide)

theorem faceBound_nil : faceBound [] = 2 ^ 64 - 1 := by decide

theorem faceBound_pos (tokens : List (List Char)) (h1 : 1 ≤ tokens.length)
    (h2 : tokens.length < 2 ^ 64) : faceBound tokens = tokens.length - 1 := by
  unfold faceBound sizeSub
  have : tokens.length + 2 ^ 64 - 1 = (tokens.length - 1) + 2 ^ 64 := by omega
  rw [this, Nat.add_mod_right]
  exact Nat.mod_eq_of_lt (by omega)

theorem emitCorner_eq (st : LoadState F) (tokens : List (List Char)) (idx : Nat) :
    emitCorner st tokens idx =
      (resolveCorner st.tempPositions st.tempNormals tokens idx).map
        (fun v => { st with mesh := pushVertex st.mesh v }) := by
  unfold emitCorner resolveCorner
  cases tokens[idx]? with
  | none => rfl
  | some face =>
    cases h : candidate st.tempPositions st.tempNormals face <;> simp [h]

theorem faceLoop_eq (tokens : List (List Char)) :
    ∀ (iters i : Nat) (st : LoadState F), i + iters < 2 ^ 64 →
      faceLoop tokens iters i st =
        (resolveAll st.tempPositions st.tempNormals tokens (fanFrom i iters)).map
          (fun cs => { st with mesh := cs.foldl pushVertex st.mesh }) := by
  intro iters
  induction iters with
  | zero => intro i st _; simp [faceLoop, fanFrom, resolveAll]
  | succ n ih =>
    intro i st h
    have hi : sizeAdd i 1 = i + 1 := sizeAdd_one i (by omega)
    simp only [faceLoop, fanFrom, resolveAll, hi, emitCorner_eq]
    cases h0 : resolveCorner st.tempPositions st.tempNormals tokens 0 with
    | none => simp
    | some v0 =>
      cases h1 : resolveCorner st.tempPositions st.tempNormals tokens i with
      | none => simp [h1]
      | some v1 =>
        cases h2 : resolveCorner st.tempPositions st.tempNormals tokens (i + 1) with
        | none => simp [h1, h2]
        | some v2 =>
          simp only [Option.map_some', Option.bind_eq_bind, Option.some_bind, h0, h1, h2]
          rw [ih (i + 1) _ (by omega)]
          cases resolveAll st.tempPositions st.tempNormals tokens (fanFrom (i + 1) n) <;> simp

theorem triangulateFace_eq (st : LoadState F) (tokens : List (List Char)) :
    triangulateFace st tokens =
      (resolveAll st.tempPositions st.tempNormals tokens
        (fanFrom 1 (faceBound tokens - 1))).map
        (fun cs => { st with mesh := cs.foldl pushVertex st.mesh }) := by
  unfold triangulateFace
  apply faceLoop_eq
  have := faceBound_lt tokens
  omega

theorem fanFrom_length : ∀ (n i : Nat), (fanFrom i n).length = 3 * n := by
  intro n
  induction n with
  | zero => intro i; rfl
  | succ n ih => intro i; simp [fanFrom, ih]; omega

theorem fanFrom_mem : ∀ (n i idx : Nat), idx ∈ fanFrom i n → idx = 0 ∨ (i ≤ idx ∧ idx ≤ i + n) := by
  intro n
  induction n with
  | zero => intro i idx h; simp [fanFrom] at h
  | succ n ih =>
    intro i idx h
    simp only [fanFrom, List.mem_cons] at h
    rcases h with h | h | h | h
    · exact Or.inl h
    · exact Or.inr ⟨by omega, by omega⟩
    · exact Or.inr ⟨by omega, by omega⟩
    · rcases ih (i + 1) idx h with h | h
      · exact Or.inl h
      · exact Or.inr ⟨by omega, by omega⟩

end Loader

/-! ## Loader: the deduplication step -/

section Dedup

variable {F : Type} [BEq F]

theorem pushVertex_found (m : Mesh F) (v : Vertex F)
    (h : ∃ u ∈ m.vertices, u.eq v = true) :
    pushVertex m v =
      { m with indices := m.indices ++ [m.vertices.findIdx (fun u => u.eq v) % 2 ^ 32] } := by
  have hlt : m.vertices.findIdx (fun u => u.eq v) < m.vertices.length :=
    List.findIdx_lt_length.mpr h
  unfold pushVertex
  simp [Nat.ne_of_lt hlt]

theorem pushVertex_new (m : Mesh F) (v : Vertex F)
    (h : ∀ u ∈ m.vertices, u.eq v = false) :
    pushVertex m v =
      { m with vertices := m.vertices ++ [v]
               indices := m.indices ++ [m.vertices.length % 2 ^ 32] } := by
  have heq : m.vertices.findIdx (fun u => u.eq v) = m.vertices.length :=
    List.findIdx_eq_length.mpr h
  unfold pushVertex
  simp only [heq, if_true]
  have : sizeSub (m.vertices.length + 1) 1 % 2 ^ 32 = m.vertices.length % 2 ^ 32 := by
    unfold sizeSub
    have e : m.vertices.length + 1 + 2 ^ 64 - 1 = m.vertices.length + 2 ^ 64 := by omega
    rw [e, Nat.add_mod_right]
    exact Nat.mod_mod_of_dvd _ (by decide)
  rw [this]

theorem pushVertex_cases (m : Mesh F) (v : Vertex F) :
    (∃ u ∈ m.vertices, u.eq v = true) ∨ (∀ u ∈ m.vertices, u.eq v = false) := by
  by_cases h : ∃ u ∈ m.vertices, u.eq v = true
  · exact Or.inl h
  · refine Or.inr (fun u hu => ?_)
    cases hv : u.eq v with
    | false => rfl
    | true => exact absurd ⟨u, hu, hv⟩ h

theorem pushVertex_indices_length (m : Mesh F) (v : Vertex F) :
    (pushVertex m v).indices.length = m.indices.length + 1 := by
  rcases pushVertex_cases m v with h | h
  · rw [pushVertex_found m v h]; simp
  · rw [pushVertex_new m v h]; simp

theorem pushVertex_valid (m : Mesh F) (v : Vertex F)
    (hm : ∀ i ∈ m.indices, i < m.vertices.length) :
    ∀ i ∈ (pushVertex m v).indices, i < (pushVertex m v).vertices.length := by
  rcases pushVertex_cases m v with h | h
  · rw [pushVertex_found m v h]
    intro i hi
    simp only [List.mem_append, List.mem_singleton] at hi
    rcases hi with hi | hi
    · exact hm i hi
    · have hlt : m.vertices.findIdx (fun u => u.eq v) < m.vertices.length :=
        List.findIdx_lt_length.mpr h
      rw [hi]
      exact Nat.lt_of_le_of_lt (Nat.mod_le _ _) hlt
  · rw [pushVertex_new m v h]
    intro i hi
    simp only [List.mem_append, List.mem_singleton] at hi
    simp only [List.length_append, List.length_singleton]
    rcases hi with hi | hi
    · exact Nat.lt_succ_of_lt (hm i hi)
    · rw [hi]
      exact Nat.lt_succ_of_le (Nat.mod_le _ _)

theorem foldPush_indices_length (cs : List (Vertex F)) :
    ∀ m : Mesh F, (cs.foldl pushVertex m).indices.length = m.indices.length + cs.length := by
  induction cs with
  | nil => intro m; rfl
  | cons c cs ih =>
    intro m
    rw [List.foldl_cons, ih, pushVertex_indices_length, List.length_cons]
    omega

theorem foldPush_valid (cs : List (Vertex F)) :
    ∀ m : Mesh F, (∀ i ∈ m.indices, i < m.vertices.length) →
      ∀ i ∈ (cs.foldl pushVertex m).indices, i < (cs.foldl pushVertex m).vertices.length := by
  induction cs with
  | nil => intro m hm; exact hm
  | cons c cs ih =>
    intro m hm
    rw [List.foldl_cons]
    exact ih _ (pushVertex_valid m c hm)

theorem foldPush_vertices (cs : List (Vertex F)) :
    ∀ m : Mesh F,
      (cs.foldl pushVertex m).vertices = m.vertices ++ firstSeenFrom m.vertices cs := by
  induction cs with
  | nil => intro m; simp [firstSeenFrom]
  | cons c cs ih =>
    intro m
    rw [List.foldl_cons, ih]
    rcases pushVertex_cases m c with h | h
    · rw [pushVertex_found m c h]
      have : m.vertices.any (fun v => v.eq c) = true := by
        rw [List.any_eq_true]; exact h
      simp [firstSeenFrom, this]
    · rw [pushVertex_new m c h]
      have : m.vertices.any (fun v => v.eq c) = false := by
        rw [List.any_eq_false]
        intro u hu
        simp [h u hu]
      simp [firstSeenFrom, this]

theorem pushVertex_pairwise (m : Mesh F) (v : Vertex F)
    (hm : m.vertices.Pairwise (fun a b => a.eq b = false)) :
    (pushVertex m v).vertices.Pairwise (fun a b => a.eq b = false) := by
  rcases pushVertex_cases m v with h | h
  · rw [pushVertex_found m v h]; exact hm
  · rw [pushVertex_new m v h]
    rw [List.pairwise_append]
    refine ⟨hm, List.pairwise_singleton _ _, ?_⟩
    intro a ha b hb
    rw [List.mem_singleton] at hb
    rw [hb]
    exact h a ha

theorem foldPush_pairwise (cs : List (Vertex F)) :
    ∀ m : Mesh F, m.vertices.Pairwise (fun a b => a.eq b = false) →
      (cs.foldl pushVertex m).vertices.Pairwise (fun a b => a.eq b = false) := by
  induction cs with
  | nil => intro m hm; exact hm
  | cons c cs ih =>
    intro m hm
    rw [List.foldl_cons]
    exact ih _ (pushVertex_pairwise m c hm)

end Dedup

/-! ## Loader: indices follow the first equal vertex -/

section Tracking

variable {F : Type} [BEq F]

theorem findIdx_append_of_mem (vs : List (Vertex F)) (w c : Vertex F)
    (h : ∃ u ∈ vs, u.eq c = true) :
    (vs ++ [w]).findIdx (fun u => u.eq c) = vs.findIdx (fun u => u.eq c) := by
  have hlt : vs.findIdx (fun u => u.eq c) < vs.length := List.findIdx_lt_length.mpr h
  rw [List.findIdx_append]
  simp [hlt]

theorem findIdx_append_new (vs : List (Vertex F)) (v : Vertex F)
    (h : ∀ u ∈ vs, u.eq v = false) (hv : v.eq v = true) :
    (vs ++ [v]).findIdx (fun u => u.eq v) = vs.length := by
  have heq : vs.findIdx (fun u => u.eq v) = vs.length := List.findIdx_eq_length.mpr h
  rw [List.findIdx_append]
  simp [heq, List.findIdx_cons, hv]

theorem pushVertex_tracks (m : Mesh F) (cs : List (Vertex F)) (v : Vertex F)
    (hm : Tracks m cs) (hv : v.eq v = true) : Tracks (pushVertex m v) (cs ++ [v]) := by
  obtain ⟨hex, hidx⟩ := hm
  rcases pushVertex_cases m v with h | h
  · rw [pushVertex_found m v h]
    constructor
    · intro c hc
      rw [List.mem_append, List.mem_singleton] at hc
      rcases hc with hc | hc
      · exact hex c hc
      · rw [hc]; exact h
    · simp [hidx]
  · rw [pushVertex_new m v h]
    constructor
    · intro c hc
      rw [List.mem_append, List.mem_singleton] at hc
      rcases hc with hc | hc
      · obtain ⟨u, hu, huc⟩ := hex c hc
        exact ⟨u, List.mem_append_left _ hu, huc⟩
      · rw [hc]
        exact ⟨v, by simp, hv⟩
    · simp only [List.map_append, List.map_cons, List.map_nil]
      rw [findIdx_append_new m.vertices v h hv, hidx]
      congr 1
      apply List.map_congr_left
      intro c hc
      rw [findIdx_append_of_mem m.vertices v c (hex c hc)]

theorem foldPush_tracks (cs : List (Vertex F)) :
    ∀ (m : Mesh F) (cs0 : List (Vertex F)), Tracks m cs0 → (∀ c ∈ cs, c.eq c = true) →
      Tracks (cs.foldl pushVertex m) (cs0 ++ cs) := by
  induction cs with
  | nil => intro m cs0 hm _; simpa using hm
  | cons c cs ih =>
    intro m cs0 hm hrefl
    rw [List.foldl_cons]
    have h1 := pushVertex_tracks m cs0 c hm (hrefl c (by simp))
    have h2 := ih (pushVertex m c) (cs0 ++ [c]) h1 (fun d hd => hrefl d (by simp [hd]))
    simpa using h2

theorem tracks_empty : Tracks (initLoad F).mesh [] := by
  constructor
  · intro c hc; simp at hc
  · rfl

theorem tracks_same_index (m : Mesh F) (cs : List (Vertex F)) (hm : Tracks m cs)
    (i j : Nat) (hi : i < cs.length) (hj : j < cs.length) (h : cs[i] = cs[j]) :
    m.indices[i]? = m.indices[j]? := by
  rw [hm.2]
  simp only [List.getElem?_map, List.getElem?_eq_getElem hi, List.getElem?_eq_getElem hj,
    Option.map_some', h]

theorem tracks_lookup (m : Mesh F) (cs : List (Vertex F)) (hm : Tracks m cs)
    (hsize : m.vertices.length ≤ 2 ^ 32) (n : Nat) (hn : n < cs.length) :
    ∃ (i : Nat) (v : Vertex F), m.indices[n]? = some i ∧ m.vertices[i]? = some v ∧
      v.eq cs[n] = true := by
  have hex := hm.1 cs[n] (List.getElem_mem hn)
  have hlt : m.vertices.findIdx (fun u => u.eq cs[n]) < m.vertices.length :=
    List.findIdx_lt_length.mpr hex
  refine ⟨m.vertices.findIdx (fun u => u.eq cs[n]),
    m.vertices.get ⟨m.vertices.findIdx (fun u => u.eq cs[n]), hlt⟩, ?_, ?_, ?_⟩
  · rw [hm.2]
    simp only [List.getElem?_map, List.getElem?_eq_getElem hn, Option.map_some']
    congr 1
    exact Nat.mod_eq_of_lt (by omega)
  · exact List.getElem?_eq_getElem hlt
  · exact List.findIdx_getElem (p := fun (u : Vertex F) => u.eq cs[n]) (w := hlt)

end Tracking

/-! ## Loader: resolving corners -/

section Resolve

theorem vecAt_of_lt {α : Type} (v : List α) (i : Int) (h0 : 0 ≤ i) (h1 : i < (v.length : Int)) :
    ∃ a, vecAt v i = some a := by
  have hlt : i.toNat < v.length := by omega
  exact ⟨v.get ⟨i.toNat, hlt⟩, by simp [vecAt, h0, List.getElem?_eq_getElem hlt]⟩

theorem vecAt_mem {α : Type} (v : List α) (i : Int) (a : α) (h : vecAt v i = some a) :
    a ∈ v := by
  unfold vecAt at h
  split at h
  · exact List.getElem?_mem h
  · exact absurd h (by simp)

theorem candidate_of_cornerOk {F : Type} (tp tn : List (Vec3 F)) (face : List Char)
    (h : cornerOk tp.length tn.length face = true) : ∃ v, candidate tp tn face = some v := by
  unfold cornerOk at h
  cases hc : cornerIndices face with
  | none => simp [hc] at h
  | some pn =>
    obtain ⟨p, n⟩ := pn
    simp only [hc, decide_eq_true_eq] at h
    obtain ⟨a, ha⟩ := vecAt_of_lt tp p h.1 h.2.1
    obtain ⟨b, hb⟩ := vecAt_of_lt tn n h.2.2.1 h.2.2.2
    exact ⟨{ position := a, normal := b }, by simp [candidate, hc, ha, hb]⟩

theorem candidate_mem {F : Type} (tp tn : List (Vec3 F)) (face : List Char) (v : Vertex F)
    (h : candidate tp tn face = some v) : v.position ∈ tp ∧ v.normal ∈ tn := by
  unfold candidate at h
  cases hc : cornerIndices face with
  | none => simp [hc] at h
  | some pn =>
    obtain ⟨p, n⟩ := pn
    cases ha : vecAt tp p with
    | none => simp [hc, ha] at h
    | some a =>
      cases hb : vecAt tn n with
      | none => simp [hc, ha, hb] at h
      | some b =>
        simp [hc, ha, hb] at h
        rw [← h]
        exact ⟨vecAt_mem tp p a ha, vecAt_mem tn n b hb⟩

theorem resolveAll_some {F : Type} (tp tn : List (Vec3 F)) (tokens : List (List Char))
    (hok : ∀ t ∈ tokens, cornerOk tp.length tn.length t = true) :
    ∀ idxs : List Nat, (∀ idx ∈ idxs, idx < tokens.length) →
      ∃ cs, resolveAll tp tn tokens idxs = some cs := by
  intro idxs
  induction idxs with
  | nil => intro _; exact ⟨[], rfl⟩
  | cons idx rest ih =>
    intro h
    have hlt : idx < tokens.length := h idx (by simp)
    obtain ⟨v, hv⟩ := candidate_of_cornerOk tp tn tokens[idx] (hok _ (List.getElem_mem hlt))
    obtain ⟨vs, hvs⟩ := ih (fun i hi => h i (by simp [hi]))
    exact ⟨v :: vs, by simp [resolveAll, resolveCorner, List.getElem?_eq_getElem hlt, hv, hvs]⟩

theorem resolveAll_mem {F : Type} (tp tn : List (Vec3 F)) (tokens : List (List Char)) :
    ∀ (idxs : List Nat) (cs : List (Vertex F)), resolveAll tp tn tokens idxs = some cs →
      ∀ c ∈ cs, c.position ∈ tp ∧ c.normal ∈ tn := by
  intro idxs
  induction idxs with
  | nil => intro cs h c hc; simp [resolveAll] at h; subst h; simp at hc
  | cons idx rest ih =>
    intro cs h c hc
    simp only [resolveAll] at h
    cases h0 : resolveCorner tp tn tokens idx with
    | none => simp [h0] at h
    | some v =>
      cases h1 : resolveAll tp tn tokens rest with
      | none => simp [h0, h1] at h
      | some vs =>
        simp [h0, h1] at h
        rw [← h, List.mem_cons] at hc
        rcases hc with hc | hc
        · rw [hc]
          unfold resolveCorner at h0
          cases ht : tokens[idx]? with
          | none => simp [ht] at h0
          | some face =>
            simp [ht] at h0
            exact candidate_mem tp tn face v h0
        · exact ih vs h1 c hc

theorem resolveAll_length {F : Type} (tp tn : List (Vec3 F)) (tokens : List (List Char)) :
    ∀ (idxs : List Nat) (cs : List (Vertex F)),
      resolveAll tp tn tokens idxs = some cs → cs.length = idxs.length := by
  intro idxs
  induction idxs with
  | nil => intro cs h; simp [resolveAll] at h; simp [← h]
  | cons idx rest ih =>
    intro cs h
    simp only [resolveAll] at h
    cases h0 : resolveCorner tp tn tokens idx with
    | none => simp [h0] at h
    | some v =>
      cases h1 : resolveAll tp tn tokens rest with
      | none => simp [h0, h1] at h
      | some vs =>
        simp [h0, h1] at h
        simp [← h, ih vs h1]

theorem fanIndices_lt (k idx : Nat) (hk : 1 ≤ k) (h : idx ∈ fanIndices k) : idx < k := by
  unfold fanIndices at h
  by_cases h2 : k - 2 = 0
  · rw [h2] at h; simp [fanFrom] at h
  · rcases fanFrom_mem (k - 2) 1 idx h with h | h
    · omega
    · omega

theorem fan_of_faceBound (tokens : List (List Char)) (h1 : 1 ≤ tokens.length)
    (h2 : tokens.length < 2 ^ 64) :
    fanFrom 1 (faceBound tokens - 1) = fanIndices tokens.length := by
  rw [faceBound_pos tokens h1 h2]
  unfold fanIndices
  congr 1

end Resolve

/-! ## Loader: whole sources -/

section Sources

variable {F : Type} [BEq F]

theorem processLine_valid (readVec3 : List Char → Vec3 F) (st st1 : LoadState F)
    (line : List Char) (h : processLine readVec3 st line = some st1)
    (hv : ∀ i ∈ st.mesh.indices, i < st.mesh.vertices.length)
    (h3 : 3 ∣ st.mesh.indices.length) :
    (∀ i ∈ st1.mesh.indices, i < st1.mesh.vertices.length) ∧ 3 ∣ st1.mesh.indices.length := by
  unfold processLine at h
  split at h
  · simp only [Option.some.injEq] at h
    subst h
    exact ⟨hv, h3⟩
  · split at h
    · simp only [Option.some.injEq] at h
      subst h
      exact ⟨hv, h3⟩
    · split at h
      · rw [triangulateFace_eq] at h
        cases hr : resolveAll st.tempPositions st.tempNormals
            (splitTokens (List.drop 2 line) [])
            (fanFrom 1 (faceBound (splitTokens (List.drop 2 line) []) - 1)) with
        | none => simp [hr] at h
        | some cs =>
          simp only [hr, Option.map_some', Option.some.injEq] at h
          subst h
          refine ⟨foldPush_valid cs st.mesh hv, ?_⟩
          show 3 ∣ (cs.foldl pushVertex st.mesh).indices.length
          rw [foldPush_indices_length, resolveAll_length _ _ _ _ cs hr, fanFrom_length]
          exact Dvd.dvd.add h3 (Dvd.intro _ rfl)
      · simp only [Option.some.injEq] at h
        subst h
        exact ⟨hv, h3⟩

theorem loadLines_valid (readVec3 : List Char → Vec3 F) :
    ∀ (lines : List (List Char)) (st st1 : LoadState F),
      loadLines readVec3 st lines = some st1 →
      (∀ i ∈ st.mesh.indices, i < st.mesh.vertices.length) →
      3 ∣ st.mesh.indices.length →
      (∀ i ∈ st1.mesh.indices, i < st1.mesh.vertices.length) ∧
        3 ∣ st1.mesh.indices.length := by
  intro lines
  induction lines with
  | nil =>
    intro st st1 h hv h3
    simp only [loadLines, Option.some.injEq] at h
    subst h
    exact ⟨hv, h3⟩
  | cons line rest ih =>
    intro st st1 h hv h3
    simp only [loadLines] at h
    cases hp : processLine readVec3 st line with
    | none => simp [hp] at h
    | some st2 =>
      simp only [hp, Option.bind_eq_bind, Option.some_bind] at h
      obtain ⟨hv2, h32⟩ := processLine_valid readVec3 st st2 line hp hv h3
      exact ih st2 st1 h hv2 h32

theorem loadLines_refines (readVec3 : List Char → Vec3 F) :
    ∀ (lines : List (List Char)) (st : LoadState F),
      facesInRange st.tempPositions.length st.tempNormals.length lines = true →
      ∃ (cs : List (Vertex F)) (st1 : LoadState F),
        cornerList readVec3 st.tempPositions st.tempNormals lines = some cs ∧
        loadLines readVec3 st lines = some st1 ∧
        st1.mesh = cs.foldl pushVertex st.mesh := by
  intro lines
  induction lines with
  | nil => intro st _; exact ⟨[], st, rfl, rfl, rfl⟩
  | cons line rest ih =>
    intro st h
    simp only [facesInRange] at h
    simp only [cornerList, loadLines, processLine]
    by_cases hv : line.take 2 = ['v', ' ']
    · simp only [if_pos hv] at h ⊢
      obtain ⟨cs, st1, h1, h2, h3⟩ :=
        ih { st with tempPositions := st.tempPositions ++ [readVec3 (line.drop 2)] }
          (by simpa using h)
      exact ⟨cs, st1, h1, by simpa using h2, h3⟩
    · by_cases hn : line.take 3 = ['v', 'n', ' ']
      · simp only [if_neg hv, if_pos hn] at h ⊢
        obtain ⟨cs, st1, h1, h2, h3⟩ :=
          ih { st with tempNormals := st.tempNormals ++ [readVec3 (line.drop 3)] }
            (by simpa using h)
        exact ⟨cs, st1, h1, by simpa using h2, h3⟩
      · by_cases hf : line.take 2 = ['f', ' ']
        · simp only [if_neg hv, if_neg hn, if_pos hf, Bool.and_eq_true, decide_eq_true_eq,
            List.all_eq_true] at h ⊢
          obtain ⟨⟨⟨hk1, hk2⟩, hok⟩, hrest⟩ := h
          obtain ⟨cs1, hcs1⟩ := resolveAll_some st.tempPositions st.tempNormals
            (splitTokens (line.drop 2) []) hok
            (fanIndices (splitTokens (line.drop 2) []).length)
            (fun idx hidx => fanIndices_lt _ idx hk1 hidx)
          rw [triangulateFace_eq, fan_of_faceBound _ hk1 hk2, hcs1]
          obtain ⟨cs2, st1, h1, h2, h3⟩ :=
            ih { st with mesh := cs1.foldl pushVertex st.mesh } hrest
          refine ⟨cs1 ++ cs2, st1, ?_, ?_, ?_⟩
          · simp only [Option.bind_eq_bind, Option.some_bind]
            have h1' : cornerList readVec3 st.tempPositions st.tempNormals rest = some cs2 := h1
            rw [h1']
            rfl
          · simpa using h2
          · rw [h3, List.foldl_append]
        · simp only [if_neg hv, if_neg hn, if_neg hf] at h ⊢
          obtain ⟨cs, st1, h1, h2, h3⟩ := ih st h
          exact ⟨cs, st1, h1, by simpa using h2, h3⟩

theorem cornerList_refl (readVec3 : List Char → Vec3 F) :
    ∀ (lines : List (List Char)) (tp tn : List (Vec3 F)) (cs : List (Vertex F)),
      noNaN readVec3 lines = true →
      (∀ p ∈ tp, p.eq p = true) → (∀ n ∈ tn, n.eq n = true) →
      cornerList readVec3 tp tn lines = some cs → ∀ c ∈ cs, c.eq c = true := by
  intro lines
  induction lines with
  | nil =>
    intro tp tn cs _ _ _ h c hc
    simp only [cornerList, Option.some.injEq] at h
    subst h
    simp at hc
  | cons line rest ih =>
    intro tp tn cs hnan htp htn h c hc
    simp only [noNaN] at hnan
    simp only [cornerList] at h
    by_cases hv : line.take 2 = ['v', ' ']
    · simp only [if_pos hv, Bool.and_eq_true] at hnan h
      refine ih _ tn cs hnan.2 ?_ htn h c hc
      intro p hp
      rw [List.mem_append, List.mem_singleton] at hp
      rcases hp with hp | hp
      · exact htp p hp
      · rw [hp]; exact hnan.1
    · by_cases hn : line.take 3 = ['v', 'n', ' ']
      · simp only [if_neg hv, if_pos hn, Bool.and_eq_true] at hnan h
        refine ih tp _ cs hnan.2 htp ?_ h c hc
        intro p hp
        rw [List.mem_append, List.mem_singleton] at hp
        rcases hp with hp | hp
        · exact htn p hp
        · rw [hp]; exact hnan.1
      · simp only [if_neg hv, if_neg hn] at hnan
        by_cases hf : line.take 2 = ['f', ' ']
        · simp only [if_neg hv, if_neg hn, if_pos hf] at h
          cases h1 : resolveAll tp tn (splitTokens (line.drop 2) [])
              (fanIndices (splitTokens (line.drop 2) []).length) with
          | none => simp [h1] at h
          | some cs1 =>
            cases h2 : cornerList readVec3 tp tn rest with
            | none => simp [h1, h2] at h
            | some cs2 =>
              simp only [h1, h2, Option.bind_eq_bind, Option.some_bind,
                Option.some.injEq] at h
              subst h
              rw [List.mem_append] at hc
              rcases hc with hc | hc
              · obtain ⟨hp, hq⟩ := resolveAll_mem tp tn _ _ cs1 h1 c hc
                simp [Vertex.eq, htp _ hp, htn _ hq]
              · exact ih tp tn cs2 hnan htp htn h2 c hc
        · simp only [if_neg hv, if_neg hn, if_neg hf] at h
          exact ih tp tn cs hnan htp htn h c hc

end Sources

/-! ## Loader: parsing a corner descriptor -/

section Parsing

theorem findIdx_sep (A B : List Char) (c : Char) (h : c ∉ A) :
    (A ++ c :: B).findIdx (fun d => d == c) = A.length := by
  have hA : A.findIdx (fun d => d == c) = A.length := by
    apply List.findIdx_eq_length.mpr
    intro x hx
    simp only [beq_eq_false_iff_ne, ne_eq]
    intro hxc
    exact h (hxc ▸ hx)
  rw [List.findIdx_append]
  simp [hA, List.findIdx_cons]

theorem strFind_first (A B : List Char) (c : Char) (h : c ∉ A) :
    strFind (A ++ c :: B) c 0 = A.length := by
  unfold strFind
  simp [findIdx_sep A B c h]

theorem strFind_second (A T B : List Char) (c : Char) (h : c ∉ T) :
    strFind (A ++ c :: (T ++ c :: B)) c (A.length + 1) = A.length + 1 + T.length := by
  unfold strFind
  have hd : (A ++ c :: (T ++ c :: B)).drop (A.length + 1) = T ++ c :: B := by
    rw [show A ++ c :: (T ++ c :: B) = (A ++ [c]) ++ (T ++ c :: B) by simp]
    exact List.drop_left' (by simp)
  rw [hd, findIdx_sep T B c h]
  simp
  omega

theorem cornerIndices_split (A T B : List Char) (hA : '/' ∉ A) (hT : '/' ∉ T)
    (hlen : (A ++ '/' :: (T ++ '/' :: B)).length < 2 ^ 64) :
    cornerIndices (A ++ '/' :: (T ++ '/' :: B)) =
      (stoi A).bind (fun pa => (intSub pa 1).bind (fun posIdx =>
        (stoi B).bind (fun nb => (intSub nb 1).bind (fun normIdx =>
          some (posIdx, normIdx))))) := by
  simp only [List.length_append, List.length_cons] at hlen
  unfold cornerIndices
  have h1 : strFind (A ++ '/' :: (T ++ '/' :: B)) '/' 0 = A.length := strFind_first A _ '/' hA
  have h1' : sizeAdd A.length 1 = A.length + 1 := sizeAdd_one _ (by omega)
  have h2 : strFind (A ++ '/' :: (T ++ '/' :: B)) '/' (A.length + 1) =
      A.length + 1 + T.length := strFind_second A T B '/' hT
  have h2' : sizeAdd (A.length + 1 + T.length) 1 = A.length + 1 + T.length + 1 :=
    sizeAdd_one _ (by omega)
  have ha : substr (A ++ '/' :: (T ++ '/' :: B)) 0 A.length = some A := by
    simp [substr]
  have hb : substr (A ++ '/' :: (T ++ '/' :: B)) (A.length + 1 + T.length + 1) npos =
      some B := by
    have hd : (A ++ '/' :: (T ++ '/' :: B)).drop (A.length + 1 + T.length + 1) = B := by
      rw [show A ++ '/' :: (T ++ '/' :: B) = (A ++ '/' :: (T ++ ['/'])) ++ B by simp]
      exact List.drop_left' (by simp; omega)
    have hle : A.length + 1 + T.length + 1 ≤ (A ++ '/' :: (T ++ '/' :: B)).length := by
      simp; omega
    unfold substr
    rw [if_pos hle, hd, List.take_of_length_le]
    unfold npos
    omega
  simp only [h1, h1', h2, h2', ha, hb]
  rfl

theorem isDigit_not_space (c : Char) (h : isDigit c = true) : isSpace c = false := by
  simp only [isDigit, Bool.and_eq_true, decide_eq_true_eq] at h
  simp only [isSpace, Bool.or_eq_false_iff, beq_eq_false_iff_ne, ne_eq, Bool.and_eq_false_iff,
    decide_eq_false_iff_not, not_le]
  omega

theorem takeWhile_all (ds : List Char) (h : ∀ c ∈ ds, isDigit c = true) :
    ds.takeWhile isDigit = ds := by
  induction ds with
  | nil => rfl
  | cons d rest ih =>
    rw [List.takeWhile_cons, h d (by simp)]
    simp only [if_true]
    rw [ih (fun c hc => h c (by simp [hc]))]

theorem stoi_signedDigits (neg : Bool) (ds : List Char) (hne : ds ≠ [])
    (hd : ∀ c ∈ ds, isDigit c = true) (hr : (decValue ds : Int) ≤ intMax) :
    stoi (signedDigits neg ds) = some (signedValue neg ds) := by
  have hmin : intMin ≤ -(decValue ds : Int) := by
    unfold intMin; unfold intMax at hr; omega
  have hmin2 : intMin ≤ (decValue ds : Int) := by
    unfold intMin; omega
  have hmax2 : -(decValue ds : Int) ≤ intMax := by
    unfold intMax; omega
  have hemp : ds.isEmpty = false := by
    cases ds with
    | nil => exact absurd rfl hne
    | cons _ _ => rfl
  cases neg with
  | true =>
    have hs : isSpace '-' = false := by decide
    simp only [signedDigits, signedValue, if_true, stoi, List.dropWhile_cons, hs]
    have h45 : ('-'.toNat == 45) = true := by decide
    simp only [Bool.false_eq_true, if_false, h45, if_true, takeWhile_all ds hd, hemp]
    simp [hmin, hmax2]
  | false =>
    obtain ⟨d, rest, rfl⟩ : ∃ d rest, ds = d :: rest := by
      cases ds with
      | nil => exact absurd rfl hne
      | cons d rest => exact ⟨d, rest, rfl⟩
    have hdig : isDigit d = true := hd d (by simp)
    have hs : isSpace d = false := isDigit_not_space d hdig
    have hrange : 48 ≤ d.toNat ∧ d.toNat ≤ 57 := by
      simpa [isDigit] using hdig
    have h45 : (d.toNat == 45) = false := by
      simp only [beq_eq_false_iff_ne, ne_eq]; omega
    have h43 : (d.toNat == 43) = false := by
      simp only [beq_eq_false_iff_ne, ne_eq]; omega
    simp only [signedDigits, signedValue, Bool.false_eq_true, if_false, stoi,
      List.dropWhile_cons, hs, h45, h43, takeWhile_all (d :: rest) hd, hemp]
    simp [hmin2, hr]

theorem intSub_one_signedValue (neg : Bool) (ds : List Char)
    (hr : (decValue ds : Int) ≤ intMax) :
    intSub (signedValue neg ds) 1 = some (signedValue neg ds - 1) := by
  unfold intSub signedValue
  unfold intMax at hr
  cases neg <;> simp [intMin, intMax] <;> omega

theorem slash_not_in_signedDigits (neg : Bool) (ds : List Char)
    (hd : ∀ c ∈ ds, isDigit c = true) : '/' ∉ signedDigits neg ds := by
  have h1 : '/' ∉ ds := by
    intro h
    have := hd _ h
    revert this
    decide
  unfold signedDigits
  cases neg
  · simpa using h1
  · simp only [if_true, List.mem_cons, not_or]
    exact ⟨by decide, h1⟩

end Parsing

/-! ## Loader: the fan order and the appended indices -/

section Fan

theorem fanFrom_getElem : ∀ (n i0 j : Nat), j < n →
    (fanFrom i0 n)[3 * j]? = some 0 ∧ (fanFrom i0 n)[3 * j + 1]? = some (i0 + j) ∧
      (fanFrom i0 n)[3 * j + 2]? = some (i0 + j + 1) := by
  intro n
  induction n with
  | zero => intro i0 j h; omega
  | succ n ih =>
    intro i0 j h
    cases j with
    | zero => simp [fanFrom]
    | succ j =>
      obtain ⟨a, b, c⟩ := ih (i0 + 1) j (by omega)
      have e0 : 3 * (j + 1) = 3 * j + 1 + 1 + 1 := by omega
      have e1 : 3 * (j + 1) + 1 = 3 * j + 1 + 1 + 1 + 1 := by omega
      have e2 : 3 * (j + 1) + 2 = 3 * j + 2 + 1 + 1 + 1 := by omega
      refine ⟨?_, ?_, ?_⟩
      · rw [e0]; simp only [fanFrom, List.getElem?_cons_succ]; exact a
      · rw [e1]; simp only [fanFrom, List.getElem?_cons_succ]; rw [b]; congr 1; omega
      · rw [e2]; simp only [fanFrom, List.getElem?_cons_succ]; rw [c]; congr 1; omega

theorem pushVertex_indices_append {F : Type} [BEq F] (m : Mesh F) (v : Vertex F) :
    ∃ x : Nat, (pushVertex m v).indices = m.indices ++ [x] := by
  rcases pushVertex_cases m v with h | h
  · rw [pushVertex_found m v h]; exact ⟨_, rfl⟩
  · rw [pushVertex_new m v h]; exact ⟨_, rfl⟩

theorem foldPush_indices_append {F : Type} [BEq F] (cs : List (Vertex F)) :
    ∀ m : Mesh F, ∃ new : List Nat, new.length = cs.length ∧
      (cs.foldl pushVertex m).indices = m.indices ++ new := by
  induction cs with
  | nil => intro m; exact ⟨[], rfl, by simp⟩
  | cons c cs ih =>
    intro m
    obtain ⟨new, hlen, heq⟩ := ih (pushVertex m c)
    obtain ⟨x, hx⟩ := pushVertex_indices_append m c
    refine ⟨x :: new, by simp [hlen], ?_⟩
    rw [List.foldl_cons, heq, hx]
    simp

theorem resolveAll_nil_tokens {F : Type} (tp tn : List (Vec3 F)) (i n : Nat) :
    resolveAll tp tn [] (fanFrom i (n + 1)) = none := by
  simp [fanFrom, resolveAll, resolveCorner]

theorem triangulateFace_nil {F : Type} [BEq F] (st : LoadState F) :
    triangulateFace st [] = none := by
  rw [triangulateFace_eq]
  obtain ⟨n, hn⟩ : ∃ n, faceBound [] - 1 = n + 1 := ⟨2 ^ 64 - 3, by decide⟩
  rw [hn, resolveAll_nil_tokens]
  rfl

theorem triangulateFace_short {F : Type} [BEq F] (st : LoadState F)
    (tokens : List (List Char)) (h1 : 1 ≤ tokens.length) (h2 : tokens.length ≤ 2) :
    triangulateFace st tokens = some st := by
  rw [triangulateFace_eq, faceBound_pos tokens h1 (by omega)]
  have : tokens.length - 1 - 1 = 0 := by omega
  rw [this]
  rfl

end Fan

/-! ## Per-frame input handling: which step writes which variable -/

section Frames

variable {F : Type}

@[simp]
theorem handleEscape_currentShader (st : ViewState F) (k : Keys) :
    (handleEscape st k).currentShader = st.currentShader := by
  simp only [handleEscape]
  split_ifs <;> rfl

@[simp]
theorem handleEscape_redT (st : ViewState F) (k : Keys) :
    (handleEscape st k).redT = st.redT := by
  simp only [handleEscape]
  split_ifs <;> rfl

@[simp]
theorem handleEscape_blueT (st : ViewState F) (k : Keys) :
    (handleEscape st k).blueT = st.blueT := by
  simp only [handleEscape]
  split_ifs <;> rfl

@[simp]
theorem handleEscape_greenT (st : ViewState F) (k : Keys) :
    (handleEscape st k).greenT = st.greenT := by
  simp only [handleEscape]
  split_ifs <;> rfl

@[simp]
theorem handleEscape_currentObjectColourToggle (st : ViewState F) (k : Keys) :
    (handleEscape st k).currentObjectColourToggle = st.currentObjectColourToggle := by
  simp only [handleEscape]
  split_ifs <;> rfl

@[simp]
theorem handleEscape_shininess (st : ViewState F) (k : Keys) :
    (handleEscape st k).shininess = st.shininess := by
  simp only [handleEscape]
  split_ifs <;> rfl

@[simp]
theorem handleEscape_angleY (st : ViewState F) (k : Keys) :
    (handleEscape st k).angleY = st.angleY := by
  simp only [handleEscape]
  split_ifs <;> rfl

@[simp]
theorem handleEscape_angleZ (st : ViewState F) (k : Keys) :
    (handleEscape st k).angleZ = st.angleZ := by
  simp only [handleEscape]
  split_ifs <;> rfl

@[simp]
theorem handleEscape_cameraDistance (st : ViewState F) (k : Keys) :
    (handleEscape st k).cameraDistance = st.cameraDistance := by
  simp only [handleEscape]
  split_ifs <;> rfl

@[simp]
theorem handleRotation_shouldClose (ops : FloatOps F) (st : ViewState F) (k : Keys) (deltaTime : F) :
    (handleRotation ops st k deltaTime).shouldClose = st.shouldClose := by
  simp only [handleRotation]
  split_ifs <;> rfl

@[simp]
theorem handleRotation_currentShader (ops : FloatOps F) (st : ViewState F) (k : Keys) (deltaTime : F) :
    (handleRotation ops st k deltaTime).currentShader = st.currentShader := by
  simp only [handleRotation]
  split_ifs <;> rfl

@[simp]
theorem handleRotation_redT (ops : FloatOps F) (st : ViewState F) (k : Keys) (deltaTime : F) :
    (handleRotation ops st k deltaTime).redT = st.redT := by
  simp only [handleRotation]
  split_ifs <;> rfl

@[simp]
theorem handleRotation_blueT (ops : FloatOps F) (st : ViewState F) (k : Keys) (deltaTime : F) :
    (handleRotation ops st k deltaTime).blueT = st.blueT := by
  simp only [handleRotation]
  split_ifs <;> rfl

@[simp]
theorem handleRotation_greenT (ops : FloatOps F) (st : ViewState F) (k : Keys) (deltaTime : F) :
    (handleRotation ops st k deltaTime).greenT = st.greenT := by
  simp only [handleRotation]
  split_ifs <;> rfl

@[simp]
theorem handleRotation_currentObjectColourToggle (ops : FloatOps F) (st : ViewState F) (k : Keys) (deltaTime : F) :
    (handleRotation ops st k deltaTime).currentObjectColourToggle = st.currentObjectColourToggle := by
  simp only [handleRotation]
  split_ifs <;> rfl

@[simp]
theorem handleRotation_shininess (ops : FloatOps F) (st : ViewState F) (k : Keys) (deltaTime : F) :
    (handleRotation ops st k deltaTime).shininess = st.shininess := by
  simp only [handleRotation]
  split_ifs <;> rfl

@[simp]
theorem handleRotation_cameraDistance (ops : FloatOps F) (st : ViewState F) (k : Keys) (deltaTime : F) :
    (handleRotation ops st k deltaTime).cameraDistance = st.cameraDistance := by
  simp only [handleRotation]
  split_ifs <;> rfl

@[simp]
theorem handleZoom_shouldClose (ops : FloatOps F) (st : ViewState F) (k : Keys) (deltaTime : F) :
    (handleZoom ops st k deltaTime).shouldClose = st.shouldClose := by
  simp only [handleZoom]
  split_ifs <;> rfl

@[simp]
theorem handleZoom_currentShader (ops : FloatOps F) (st : ViewState F) (k : Keys) (deltaTime : F) :
    (handleZoom ops st k deltaTime).currentShader = st.currentShader := by
  simp only [handleZoom]
  split_ifs <;> rfl

@[simp]
theorem handleZoom_redT (ops : FloatOps F) (st : ViewState F) (k : Keys) (deltaTime : F) :
    (handleZoom ops st k deltaTime).redT = st.redT := by
  simp only [handleZoom]
  split_ifs <;> rfl

@[simp]
theorem handleZoom_blueT (ops : FloatOps F) (st : ViewState F) (k : Keys) (deltaTime : F) :
    (handleZoom ops st k deltaTime).blueT = st.blueT := by
  simp only [handleZoom]
  split_ifs <;> rfl

@[simp]
theorem handleZoom_greenT (ops : FloatOps F) (st : ViewState F) (k : Keys) (deltaTime : F) :
    (handleZoom ops st k deltaTime).greenT = st.greenT := by
  simp only [handleZoom]
  split_ifs <;> rfl

@[simp]
theorem handleZoom_currentObjectColourToggle (ops : FloatOps F) (st : ViewState F) (k : Keys) (deltaTime : F) :
    (handleZoom ops st k deltaTime).currentObjectColourToggle = st.currentObjectColourToggle := by
  simp only [handleZoom]
  split_ifs <;> rfl

@[simp]
theorem handleZoom_shininess (ops : FloatOps F) (st : ViewState F) (k : Keys) (deltaTime : F) :
    (handleZoom ops st k deltaTime).shininess = st.shininess := by
  simp only [handleZoom]
  split_ifs <;> rfl

@[simp]
theorem handleZoom_angleY (ops : FloatOps F) (st : ViewState F) (k : Keys) (deltaTime : F) :
    (handleZoom ops st k deltaTime).angleY = st.angleY := by
  simp only [handleZoom]
  split_ifs <;> rfl

@[simp]
theorem handleZoom_angleZ (ops : FloatOps F) (st : ViewState F) (k : Keys) (deltaTime : F) :
    (handleZoom ops st k deltaTime).angleZ = st.angleZ := by
  simp only [handleZoom]
  split_ifs <;> rfl

@[simp]
theorem handleColourToggle_shouldClose (st : ViewState F) (k : Keys) :
    (handleColourToggle st k).shouldClose = st.shouldClose := by
  simp only [handleColourToggle]
  split_ifs <;> rfl

@[simp]
theorem handleColourToggle_currentShader (st : ViewState F) (k : Keys) :
    (handleColourToggle st k).currentShader = st.currentShader := by
  simp only [handleColourToggle]
  split_ifs <;> rfl

@[simp]
theorem handleColourToggle_redT (st : ViewState F) (k : Keys) :
    (handleColourToggle st k).redT = st.redT := by
  simp only [handleColourToggle]
  split_ifs <;> rfl

@[simp]
theorem handleColourToggle_blueT (st : ViewState F) (k : Keys) :
    (handleColourToggle st k).blueT = st.blueT := by
  simp only [handleColourToggle]
  split_ifs <;> rfl

@[simp]
theorem handleColourToggle_greenT (st : ViewState F) (k : Keys) :
    (handleColourToggle st k).greenT = st.greenT := by
  simp only [handleColourToggle]
  split_ifs <;> rfl

@[simp]
theorem handleColourToggle_shininess (st : ViewState F) (k : Keys) :
    (handleColourToggle st k).shininess = st.shininess := by
  simp only [handleColourToggle]
  split_ifs <;> rfl

@[simp]
theorem handleColourToggle_angleY (st : ViewState F) (k : Keys) :
    (handleColourToggle st k).angleY = st.angleY := by
  simp only [handleColourToggle]
  split_ifs <;> rfl

@[simp]
theorem handleColourToggle_angleZ (st : ViewState F) (k : Keys) :
    (handleColourToggle st k).angleZ = st.angleZ := by
  simp only [handleColourToggle]
  split_ifs <;> rfl

@[simp]
theorem handleColourToggle_cameraDistance (st : ViewState F) (k : Keys) :
    (handleColourToggle st k).cameraDistance = st.cameraDistance := by
  simp only [handleColourToggle]
  split_ifs <;> rfl

@[simp]
theorem handleShader_shouldClose (ops : FloatOps F) (sh : Shaders) (st : ViewState F) (k : Keys) :
    (handleShader ops sh st k).shouldClose = st.shouldClose := by
  simp only [handleShader]
  split_ifs <;> rfl

@[simp]
theorem handleShader_redT (ops : FloatOps F) (sh : Shaders) (st : ViewState F) (k : Keys) :
    (handleShader ops sh st k).redT = st.redT := by
  simp only [handleShader]
  split_ifs <;> rfl

@[simp]
theorem handleShader_blueT (ops : FloatOps F) (sh : Shaders) (st : ViewState F) (k : Keys) :
    (handleShader ops sh st k).blueT = st.blueT := by
  simp only [handleShader]
  split_ifs <;> rfl

@[simp]
theorem handleShader_greenT (ops : FloatOps F) (sh : Shaders) (st : ViewState F) (k : Keys) :
    (handleShader ops sh st k).greenT = st.greenT := by
  simp only [handleShader]
  split_ifs <;> rfl

@[simp]
theorem handleShader_currentObjectColourToggle (ops : FloatOps F) (sh : Shaders) (st : ViewState F) (k : Keys) :
    (handleShader ops sh st k).currentObjectColourToggle = st.currentObjectColourToggle := by
  simp only [handleShader]
  split_ifs <;> rfl

@[simp]
theorem handleShader_angleY (ops : FloatOps F) (sh : Shaders) (st : ViewState F) (k : Keys) :
    (handleShader ops sh st k).angleY = st.angleY := by
  simp only [handleShader]
  split_ifs <;> rfl

@[simp]
theorem handleShader_angleZ (ops : FloatOps F) (sh : Shaders) (st : ViewState F) (k : Keys) :
    (handleShader ops sh st k).angleZ = st.angleZ := by
  simp only [handleShader]
  split_ifs <;> rfl

@[simp]
theorem handleShader_cameraDistance (ops : FloatOps F) (sh : Shaders) (st : ViewState F) (k : Keys) :
    (handleShader ops sh st k).cameraDistance = st.cameraDistance := by
  simp only [handleShader]
  split_ifs <;> rfl

@[simp]
theorem adjustChannel_shouldClose (op : F → F → F) (step : F) (st : ViewState F) :
    (adjustChannel op step st).shouldClose = st.shouldClose := by
  simp only [adjustChannel]
  split_ifs <;> rfl

@[simp]
theorem adjustChannel_currentShader (op : F → F → F) (step : F) (st : ViewState F) :
    (adjustChannel op step st).currentShader = st.currentShader := by
  simp only [adjustChannel]
  split_ifs <;> rfl

@[simp]
theorem adjustChannel_currentObjectColourToggle (op : F → F → F) (step : F) (st : ViewState F) :
    (adjustChannel op step st).currentObjectColourToggle = st.currentObjectColourToggle := by
  simp only [adjustChannel]
  split_ifs <;> rfl

@[simp]
theorem adjustChannel_shininess (op : F → F → F) (step : F) (st : ViewState F) :
    (adjustChannel op step st).shininess = st.shininess := by
  simp only [adjustChannel]
  split_ifs <;> rfl

@[simp]
theorem adjustChannel_angleY (op : F → F → F) (step : F) (st : ViewState F) :
    (adjustChannel op step st).angleY = st.angleY := by
  simp only [adjustChannel]
  split_ifs <;> rfl

@[simp]
theorem adjustChannel_angleZ (op : F → F → F) (step : F) (st : ViewState F) :
    (adjustChannel op step st).angleZ = st.angleZ := by
  simp only [adjustChannel]
  split_ifs <;> rfl

@[simp]
theorem adjustChannel_cameraDistance (op : F → F → F) (step : F) (st : ViewState F) :
    (adjustChannel op step st).cameraDistance = st.cameraDistance := by
  simp only [adjustChannel]
  split_ifs <;> rfl

@[simp]
theorem handleColour_shouldClose (ops : FloatOps F) (st : ViewState F) (k : Keys) :
    (handleColour ops st k).shouldClose = st.shouldClose := by
  simp only [handleColour]
  split_ifs <;> simp only [adjustChannel_shouldClose]

@[simp]
theorem handleColour_currentShader (ops : FloatOps F) (st : ViewState F) (k : Keys) :
    (handleColour ops st k).currentShader = st.currentShader := by
  simp only [handleColour]
  split_ifs <;> simp only [adjustChannel_currentShader]

@[simp]
theorem handleColour_currentObjectColourToggle (ops : FloatOps F) (st : ViewState F) (k : Keys) :
    (handleColour ops st k).currentObjectColourToggle = st.currentObjectColourToggle := by
  simp only [handleColour]
  split_ifs <;> simp only [adjustChannel_currentObjectColourToggle]

@[simp]
theorem handleColour_shininess (ops : FloatOps F) (st : ViewState F) (k : Keys) :
    (handleColour ops st k).shininess = st.shininess := by
  simp only [handleColour]
  split_ifs <;> simp only [adjustChannel_shininess]

@[simp]
theorem handleColour_angleY (ops : FloatOps F) (st : ViewState F) (k : Keys) :
    (handleColour ops st k).angleY = st.angleY := by
  simp only [handleColour]
  split_ifs <;> simp only [adjustChannel_angleY]

@[simp]
theorem handleColour_angleZ (ops : FloatOps F) (st : ViewState F) (k : Keys) :
    (handleColour ops st k).angleZ = st.angleZ := by
  simp only [handleColour]
  split_ifs <;> simp only [adjustChannel_angleZ]

@[simp]
theorem handleColour_cameraDistance (ops : FloatOps F) (st : ViewState F) (k : Keys) :
    (handleColour ops st k).cameraDistance = st.cameraDistance := by
  simp only [handleColour]
  split_ifs <;> simp only [adjustChannel_cameraDistance]

@[simp]
theorem clampDistance_shouldClose [LinearOrder F] (ops : FloatOps F) (st : ViewState F) :
    (clampDistance ops st).shouldClose = st.shouldClose := by
  rfl

@[simp]
theorem clampDistance_currentShader [LinearOrder F] (ops : FloatOps F) (st : ViewState F) :
    (clampDistance ops st).currentShader = st.currentShader := by
  rfl

@[simp]
theorem clampDistance_redT [LinearOrder F] (ops : FloatOps F) (st : ViewState F) :
    (clampDistance ops st).redT = st.redT := by
  rfl

@[simp]
theorem clampDistance_blueT [LinearOrder F] (ops : FloatOps F) (st : ViewState F) :
    (clampDistance ops st).blueT = st.blueT := by
  rfl

@[simp]
theorem clampDistance_greenT [LinearOrder F] (ops : FloatOps F) (st : ViewState F) :
    (clampDistance ops st).greenT = st.greenT := by
  rfl

@[simp]
theorem clampDistance_currentObjectColourToggle [LinearOrder F] (ops : FloatOps F) (st : ViewState F) :
    (clampDistance ops st).currentObjectColourToggle = st.currentObjectColourToggle := by
  rfl

@[simp]
theorem clampDistance_shininess [LinearOrder F] (ops : FloatOps F) (st : ViewState F) :
    (clampDistance ops st).shininess = st.shininess := by
  rfl

@[simp]
theorem clampDistance_angleY [LinearOrder F] (ops : FloatOps F) (st : ViewState F) :
    (clampDistance ops st).angleY = st.angleY := by
  rfl

@[simp]
theorem clampDistance_angleZ [LinearOrder F] (ops : FloatOps F) (st : ViewState F) :
    (clampDistance ops st).angleZ = st.angleZ := by
  rfl

@[simp]
theorem clampDistance_cameraDistance [LinearOrder F] (ops : FloatOps F)
    (st : ViewState F) :
    (clampDistance ops st).cameraDistance = clamp st.cameraDistance (ops.lit 3 2) (ops.lit 40 1) :=
  rfl

theorem clamp_bounds [LinearOrder F] (x lo hi : F) (h : lo ≤ hi) :
    lo ≤ clamp x lo hi ∧ clamp x lo hi ≤ hi := by
  unfold clamp glmMin glmMax
  by_cases h1 : x < lo
  · simp only [h1, if_true]
    have h2 : ¬ hi < lo := not_lt.mpr h
    simp only [h2, if_false]
    exact ⟨le_refl lo, h⟩
  · simp only [h1, if_false]
    by_cases h2 : hi < x
    · simp only [h2, if_true]
      exact ⟨h, le_refl hi⟩
    · simp only [h2, if_false]
      exact ⟨not_lt.mp h1, not_lt.mp h2⟩

theorem frame_cameraDistance [LinearOrder F] (ops : FloatOps F) (sh : Shaders)
    (st : ViewState F) (k : Keys) (deltaTime : F) :
    (frame ops sh st k deltaTime).cameraDistance =
      clamp (handleZoom ops st k deltaTime).cameraDistance (ops.lit 3 2) (ops.lit 40 1) := by
  simp only [frame, clampDistance_cameraDistance, handleColour_cameraDistance,
    handleShader_cameraDistance, handleColourToggle_cameraDistance]
  congr 1
  simp only [handleZoom]
  split_ifs <;> simp

theorem frame_angleY [LinearOrder F] (ops : FloatOps F) (sh : Shaders)
    (st : ViewState F) (k : Keys) (deltaTime : F) :
    (frame ops sh st k deltaTime).angleY = (handleRotation ops st k deltaTime).angleY := by
  simp only [frame, clampDistance_angleY, handleColour_angleY, handleShader_angleY,
    handleColourToggle_angleY, handleZoom_angleY]
  simp only [handleRotation]
  split_ifs <;> simp

theorem frame_angleZ [LinearOrder F] (ops : FloatOps F) (sh : Shaders)
    (st : ViewState F) (k : Keys) (deltaTime : F) :
    (frame ops sh st k deltaTime).angleZ = (handleRotation ops st k deltaTime).angleZ := by
  simp only [frame, clampDistance_angleZ, handleColour_angleZ, handleShader_angleZ,
    handleColourToggle_angleZ, handleZoom_angleZ]
  simp only [handleRotation]
  split_ifs <;> simp

theorem frame_shader [LinearOrder F] (ops : FloatOps F) (sh : Shaders)
    (st : ViewState F) (k : Keys) (deltaTime : F) :
    (frame ops sh st k deltaTime).currentShader = (handleShader ops sh st k).currentShader ∧
    (frame ops sh st k deltaTime).shininess = (handleShader ops sh st k).shininess := by
  simp only [frame, clampDistance_currentShader, handleColour_currentShader,
    clampDistance_shininess, handleColour_shininess]
  simp only [handleShader]
  split_ifs <;> simp

end Frames

/-! ## Per-frame input handling: runs -/

section Runs

variable {F : Type} [LinearOrder F]

theorem runFrames_append (ops : FloatOps F) (sh : Shaders) (st : ViewState F)
    (xs ys : List (Keys × F)) :
    runFrames ops sh st (xs ++ ys) = runFrames ops sh (runFrames ops sh st xs) ys := by
  simp [runFrames, List.foldl_append]

theorem runFrames_cons (ops : FloatOps F) (sh : Shaders) (st : ViewState F)
    (x : Keys × F) (xs : List (Keys × F)) :
    runFrames ops sh st (x :: xs) = runFrames ops sh (frame ops sh st x.1 x.2) xs := rfl

theorem frame_onlyA (ops : FloatOps F) (sh : Shaders) (st : ViewState F) (dt : F) :
    (frame ops sh st onlyA dt).angleY = ops.add st.angleY (ops.mul (rotationSpeed ops) dt) ∧
    (frame ops sh st onlyA dt).angleZ = st.angleZ := by
  rw [frame_angleY, frame_angleZ]
  simp [handleRotation, onlyA, noKeys]

theorem frame_onlyD (ops : FloatOps F) (sh : Shaders) (st : ViewState F) (dt : F) :
    (frame ops sh st onlyD dt).angleY = ops.sub st.angleY (ops.mul (rotationSpeed ops) dt) ∧
    (frame ops sh st onlyD dt).angleZ = st.angleZ := by
  rw [frame_angleY, frame_angleZ]
  simp [handleRotation, onlyD, noKeys]

theorem frame_channels (ops : FloatOps F) (sh : Shaders) (st : ViewState F) (k : Keys) (dt : F) :
    frame ops sh st k dt =
      clampDistance ops (handleColour ops (handleShader ops sh (handleColourToggle
        (handleZoom ops (handleRotation ops (handleEscape st k) k dt) k dt) k) k) k) := rfl

theorem frame_onlyG (ops : FloatOps F) (sh : Shaders) (st : ViewState F) (dt : F) :
    (frame ops sh st onlyG dt).currentObjectColourToggle = 'G' ∧
    (frame ops sh st onlyG dt).redT = st.redT ∧
    (frame ops sh st onlyG dt).greenT = st.greenT ∧
    (frame ops sh st onlyG dt).blueT = st.blueT := by
  simp [frame, handleColour, handleColourToggle, onlyG, noKeys]

theorem frame_onlyT (ops : FloatOps F) (sh : Shaders) (st : ViewState F) (dt : F) :
    (frame ops sh st onlyT dt).currentObjectColourToggle = st.currentObjectColourToggle ∧
    (frame ops sh st onlyT dt).redT =
      (adjustChannel ops.add (ops.lit 1 100) st).redT ∧
    (frame ops sh st onlyT dt).greenT =
      (adjustChannel ops.add (ops.lit 1 100) st).greenT ∧
    (frame ops sh st onlyT dt).blueT =
      (adjustChannel ops.add (ops.lit 1 100) st).blueT := by
  simp [frame, handleColour, handleColourToggle, handleShader, handleZoom, handleRotation,
    handleEscape, adjustChannel, onlyT, noKeys]
  split_ifs <;> simp

end Runs

/-! ## Per-frame input handling: the channel and angle effects of runs -/

section RunEffects

variable {F : Type} [LinearOrder F]

theorem run_onlyT (ops : FloatOps F) (sh : Shaders) (dts : List F) :
    ∀ st : ViewState F,
      (runFrames ops sh st (dts.map (fun dt => (onlyT, dt)))).currentObjectColourToggle =
        st.currentObjectColourToggle ∧
      (st.currentObjectColourToggle = 'R' →
        (runFrames ops sh st (dts.map (fun dt => (onlyT, dt)))).redT =
          (fun c => ops.add c (ops.lit 1 100))^[dts.length] st.redT ∧
        (runFrames ops sh st (dts.map (fun dt => (onlyT, dt)))).greenT = st.greenT ∧
        (runFrames ops sh st (dts.map (fun dt => (onlyT, dt)))).blueT = st.blueT) ∧
      (st.currentObjectColourToggle = 'G' →
        (runFrames ops sh st (dts.map (fun dt => (onlyT, dt)))).greenT =
          (fun c => ops.add c (ops.lit 1 100))^[dts.length] st.greenT ∧
        (runFrames ops sh st (dts.map (fun dt => (onlyT, dt)))).redT = st.redT ∧
        (runFrames ops sh st (dts.map (fun dt => (onlyT, dt)))).blueT = st.blueT) ∧
      (st.currentObjectColourToggle = 'B' →
        (runFrames ops sh st (dts.map (fun dt => (onlyT, dt)))).blueT =
          (fun c => ops.add c (ops.lit 1 100))^[dts.length] st.blueT ∧
        (runFrames ops sh st (dts.map (fun dt => (onlyT, dt)))).redT = st.redT ∧
        (runFrames ops sh st (dts.map (fun dt => (onlyT, dt)))).greenT = st.greenT) := by
  induction dts with
  | nil => intro st; simp [runFrames]
  | cons dt rest ih =>
    intro st
    simp only [List.map_cons, runFrames_cons, List.length_cons, Function.iterate_succ,
      Function.comp_apply]
    obtain ⟨ht, hr, hg, hb⟩ := frame_onlyT ops sh st dt
    obtain ⟨it, ir, ig, ib⟩ := ih (frame ops sh st onlyT dt)
    refine ⟨by rw [it, ht], ?_, ?_, ?_⟩
    · intro h
      obtain ⟨a, b, c⟩ := ir (by rw [ht, h])
      rw [a, b, c, hr, hg, hb]
      simp [adjustChannel, h]
    · intro h
      obtain ⟨a, b, c⟩ := ig (by rw [ht, h])
      rw [a, b, c, hr, hg, hb]
      simp [adjustChannel, h]
    · intro h
      obtain ⟨a, b, c⟩ := ib (by rw [ht, h])
      rw [a, b, c, hr, hg, hb]
      simp [adjustChannel, h]

theorem iterate_add_exact {K : Type} [Field K] (c : K) (n : Nat) (x : K) :
    (fun y => (exactOps K).add y c)^[n] x = x + n * c := by
  induction n generalizing x with
  | zero => simp
  | succ n ih =>
    rw [Function.iterate_succ, Function.comp_apply, ih]
    simp only [exactOps, Nat.cast_succ]
    ring

theorem run_onlyA_exact {K : Type} [LinearOrderedField K] (sh : Shaders) (ds : List K) :
    ∀ st : ViewState K,
      (runFrames (exactOps K) sh st (ds.map (fun d => (onlyA, d)))).angleY =
        st.angleY + 2 * ds.sum ∧
      (runFrames (exactOps K) sh st (ds.map (fun d => (onlyA, d)))).angleZ = st.angleZ := by
  induction ds with
  | nil => intro st; simp [runFrames]
  | cons d rest ih =>
    intro st
    simp only [List.map_cons, runFrames_cons, List.sum_cons]
    obtain ⟨hy, hz⟩ := frame_onlyA (exactOps K) sh st d
    obtain ⟨iy, iz⟩ := ih (frame (exactOps K) sh st onlyA d)
    rw [iy, iz, hy, hz]
    refine ⟨?_, rfl⟩
    simp only [exactOps, rotationSpeed]
    ring

theorem run_onlyD_exact {K : Type} [LinearOrderedField K] (sh : Shaders) (ds : List K) :
    ∀ st : ViewState K,
      (runFrames (exactOps K) sh st (ds.map (fun d => (onlyD, d)))).angleY =
        st.angleY - 2 * ds.sum ∧
      (runFrames (exactOps K) sh st (ds.map (fun d => (onlyD, d)))).angleZ = st.angleZ := by
  induction ds with
  | nil => intro st; simp [runFrames]
  | cons d rest ih =>
    intro st
    simp only [List.map_cons, runFrames_cons, List.sum_cons]
    obtain ⟨hy, hz⟩ := frame_onlyD (exactOps K) sh st d
    obtain ⟨iy, iz⟩ := ih (frame (exactOps K) sh st onlyD d)
    rw [iy, iz, hy, hz]
    refine ⟨?_, rfl⟩
    simp only [exactOps, rotationSpeed]
    ring

end RunEffects

/-! ## Binary32 rounding: the error of one operation -/

section Rounding

theorem roundToNearest_eq (q : ℚ) :
    roundToNearest q =
      if q.num = 0 then 0 else
        if q.num < 0 then
          -mkRat ((roundMant (q.num.natAbs * 2 ^ (-(roundExp q.num.natAbs q.den - 23)).toNat)
              (q.den * 2 ^ (roundExp q.num.natAbs q.den - 23).toNat) *
            2 ^ (roundExp q.num.natAbs q.den - 23).toNat : Nat) : Int)
            (2 ^ (-(roundExp q.num.natAbs q.den - 23)).toNat)
        else
          mkRat ((roundMant (q.num.natAbs * 2 ^ (-(roundExp q.num.natAbs q.den - 23)).toNat)
              (q.den * 2 ^ (roundExp q.num.natAbs q.den - 23).toNat) *
            2 ^ (roundExp q.num.natAbs q.den - 23).toNat : Nat) : Int)
            (2 ^ (-(roundExp q.num.natAbs q.den - 23)).toNat) := rfl

theorem bitLength_zero (fuel : Nat) : bitLength fuel 0 = 0 := by
  cases fuel <;> simp [bitLength]

theorem bitLength_spec : ∀ (fuel n : Nat), n ≤ fuel → 0 < n →
    0 < bitLength fuel n ∧ 2 ^ (bitLength fuel n - 1) ≤ n ∧ n < 2 ^ bitLength fuel n := by
  intro fuel
  induction fuel with
  | zero => intro n h1 h2; omega
  | succ fuel ih =>
    intro n h1 h2
    have hn : n ≠ 0 := by omega
    simp only [bitLength, hn, if_false]
    by_cases h : n / 2 = 0
    · rw [h, bitLength_zero]
      have : n = 1 := by omega
      subst this
      simp
    · obtain ⟨hb, hlo, hhi⟩ := ih (n / 2) (by omega) (by omega)
      refine ⟨by omega, ?_, ?_⟩
      · have e : bitLength fuel (n / 2) + 1 - 1 = (bitLength fuel (n / 2) - 1) + 1 := by omega
        rw [e, Nat.pow_succ]
        omega
      · rw [Nat.pow_succ]
        omega

theorem floorLog2_spec (n : Nat) (h : 0 < n) :
    2 ^ floorLog2 n ≤ n ∧ n < 2 ^ (floorLog2 n + 1) := by
  obtain ⟨hb, hlo, hhi⟩ := bitLength_spec n n (le_refl n) h
  unfold floorLog2
  refine ⟨hlo, ?_⟩
  have e : bitLength n n - 1 + 1 = bitLength n n := by omega
  rw [e]
  exact hhi

theorem two_zpow_toNat (k : Int) :
    ((2 : ℚ) ^ k.toNat) / (2 : ℚ) ^ (-k).toNat = (2 : ℚ) ^ k := by
  rcases le_total 0 k with h | h
  · have h1 : (-k).toNat = 0 := by omega
    rw [h1, pow_zero, div_one, ← zpow_natCast, Int.toNat_of_nonneg h]
  · have h1 : k.toNat = 0 := by omega
    have h2 : ((-k).toNat : Int) = -k := Int.toNat_of_nonneg (by omega)
    rw [h1, pow_zero, one_div, ← zpow_natCast, h2, zpow_neg, inv_inv]

theorem roundExp_le (n d : Nat) (hn : 0 < n) (hd : 0 < d) :
    (2 : ℚ) ^ roundExp n d ≤ (n : ℚ) / (d : ℚ) := by
  have hdq : (0 : ℚ) < (d : ℚ) := by exact_mod_cast hd
  obtain ⟨hnlo, _⟩ := floorLog2_spec n hn
  obtain ⟨_, hdhi⟩ := floorLog2_spec d hd
  unfold roundExp
  simp only []
  split_ifs with h
  · have e : ((floorLog2 n : Int) - (floorLog2 d : Int) - 1) =
        (floorLog2 n : Int) - ((floorLog2 d + 1 : Nat) : Int) := by push_cast; ring
    rw [e, zpow_sub₀ (by norm_num : (2 : ℚ) ≠ 0), zpow_natCast, zpow_natCast]
    have h1 : ((2 : ℚ) ^ floorLog2 n) ≤ (n : ℚ) := by exact_mod_cast hnlo
    have h2 : (d : ℚ) ≤ (2 : ℚ) ^ (floorLog2 d + 1) := by exact_mod_cast (le_of_lt hdhi)
    exact div_le_div₀ (by positivity) h1 hdq h2
  · rw [← two_zpow_toNat]
    have h' : d * 2 ^ ((floorLog2 n : Int) - (floorLog2 d : Int)).toNat ≤
        n * 2 ^ (-((floorLog2 n : Int) - (floorLog2 d : Int))).toNat := Nat.le_of_not_lt h
    have hq : (d : ℚ) * (2 : ℚ) ^ ((floorLog2 n : Int) - (floorLog2 d : Int)).toNat ≤
        (n : ℚ) * (2 : ℚ) ^ (-((floorLog2 n : Int) - (floorLog2 d : Int))).toNat := by
      exact_mod_cast h'
    rw [div_le_div_iff₀ (by positivity) hdq]
    linarith

theorem roundMant_spec (num den : Nat) (hden : 0 < den) :
    num / den ≤ roundMant num den ∧
      |((roundMant num den : Nat) : ℚ) - (num : ℚ) / (den : ℚ)| ≤ 1 / 2 := by
  have hdq : (0 : ℚ) < (den : ℚ) := by exact_mod_cast hden
  have key : (num : ℚ) = (den : ℚ) * ((num / den : Nat) : ℚ) + ((num % den : Nat) : ℚ) := by
    exact_mod_cast (Nat.div_add_mod num den).symm
  have hx : (num : ℚ) / (den : ℚ) =
      ((num / den : Nat) : ℚ) + ((num % den : Nat) : ℚ) / (den : ℚ) := by
    conv_lhs => rw [key]
    rw [add_div, mul_div_cancel_left₀ _ (ne_of_gt hdq)]
  have hr0 : (0 : ℚ) ≤ ((num % den : Nat) : ℚ) / (den : ℚ) := by positivity
  unfold roundMant
  split_ifs with h1 h2 h3
  · refine ⟨le_refl _, ?_⟩
    have : ((num % den : Nat) : ℚ) / (den : ℚ) ≤ 1 / 2 := by
      rw [div_le_iff₀ hdq]
      have : (2 : ℚ) * ((num % den : Nat) : ℚ) < (den : ℚ) := by exact_mod_cast h1
      linarith
    rw [hx, abs_le]
    constructor <;> linarith
  · refine ⟨Nat.le_succ _, ?_⟩
    have : 1 / 2 ≤ ((num % den : Nat) : ℚ) / (den : ℚ) := by
      rw [le_div_iff₀ hdq]
      have : (den : ℚ) < (2 : ℚ) * ((num % den : Nat) : ℚ) := by exact_mod_cast h2
      linarith
    have hlt : ((num % den : Nat) : ℚ) / (den : ℚ) ≤ 1 := by
      rw [div_le_iff₀ hdq]
      have : ((num % den : Nat) : ℚ) < (den : ℚ) := by
        exact_mod_cast Nat.mod_lt num hden
      linarith
    rw [hx, abs_le]
    push_cast
    constructor <;> linarith
  · refine ⟨le_refl _, ?_⟩
    have he : 2 * (num % den) = den := by omega
    have : ((num % den : Nat) : ℚ) / (den : ℚ) = 1 / 2 := by
      rw [div_eq_iff (ne_of_gt hdq)]
      have : (2 : ℚ) * ((num % den : Nat) : ℚ) = (den : ℚ) := by exact_mod_cast he
      linarith
    rw [hx, abs_le]
    constructor <;> linarith
  · refine ⟨Nat.le_succ _, ?_⟩
    have he : 2 * (num % den) = den := by omega
    have : ((num % den : Nat) : ℚ) / (den : ℚ) = 1 / 2 := by
      rw [div_eq_iff (ne_of_gt hdq)]
      have : (2 : ℚ) * ((num % den : Nat) : ℚ) = (den : ℚ) := by exact_mod_cast he
      linarith
    rw [hx, abs_le]
    push_cast
    constructor <;> linarith

theorem abs_eq_natAbs_div (q : ℚ) : |q| = (q.num.natAbs : ℚ) / (q.den : ℚ) := by
  rw [Rat.abs_def, Rat.divInt_eq_div]
  push_cast
  rw [Nat.cast_natAbs, Int.cast_abs]

theorem roundToNearest_abs (q : ℚ) (h0 : q.num ≠ 0) :
    ∃ mag : ℚ, 0 ≤ mag ∧ |mag - abs q| ≤ 1 / 2 ^ 24 * mag ∧
      roundToNearest q = if q.num < 0 then -mag else mag := by
  have hnpos : 0 < q.num.natAbs := Int.natAbs_pos.mpr h0
  have hdpos : 0 < q.den := q.den_pos
  obtain ⟨k, hk⟩ : ∃ k : Int, k = roundExp q.num.natAbs q.den - 23 := ⟨_, rfl⟩
  obtain ⟨m, hm⟩ : ∃ m : Nat,
      m = roundMant (q.num.natAbs * 2 ^ (-k).toNat) (q.den * 2 ^ k.toNat) := ⟨_, rfl⟩
  have h2k : (0 : ℚ) < (2 : ℚ) ^ k := zpow_pos (by norm_num) k
  have hdq : (0 : ℚ) < (q.den : ℚ) := by exact_mod_cast hdpos
  have hmag : (mkRat ((m * 2 ^ k.toNat : Nat) : Int) (2 ^ (-k).toNat) : ℚ) =
      (m : ℚ) * (2 : ℚ) ^ k := by
    rw [Rat.mkRat_eq_div]
    push_cast
    rw [mul_div_assoc, two_zpow_toNat]
  have hs : ((q.num.natAbs * 2 ^ (-k).toNat : Nat) : ℚ) / ((q.den * 2 ^ k.toNat : Nat) : ℚ) =
      |q| / (2 : ℚ) ^ k := by
    rw [abs_eq_natAbs_div, ← two_zpow_toNat k]
    push_cast
    field_simp
  obtain ⟨hfm, herr⟩ := roundMant_spec (q.num.natAbs * 2 ^ (-k).toNat) (q.den * 2 ^ k.toNat)
    (Nat.mul_pos hdpos (Nat.pow_pos (by norm_num)))
  rw [← hm, hs] at herr
  rw [← hm] at hfm
  have hexp : (2 : ℚ) ^ (k + 23) ≤ |q| := by
    have := roundExp_le q.num.natAbs q.den hnpos hdpos
    rw [abs_eq_natAbs_div]
    have e : k + 23 = roundExp q.num.natAbs q.den := by omega
    rw [e]
    exact this
  have hs23 : (2 : ℚ) ^ 23 ≤ |q| / (2 : ℚ) ^ k := by
    rw [le_div_iff₀ h2k]
    have e : (2 : ℚ) ^ (k + 23) = (2 : ℚ) ^ 23 * (2 : ℚ) ^ k := by
      rw [zpow_add₀ (by norm_num : (2 : ℚ) ≠ 0), mul_comm]
      norm_cast
    rw [← e]
    exact hexp
  have hf23 : 2 ^ 23 ≤ q.num.natAbs * 2 ^ (-k).toNat / (q.den * 2 ^ k.toNat) := by
    rw [Nat.le_div_iff_mul_le (Nat.mul_pos hdpos (Nat.pow_pos (by norm_num)))]
    have hden : (0 : ℚ) < ((q.den * 2 ^ k.toNat : Nat) : ℚ) := by
      exact_mod_cast Nat.mul_pos hdpos (Nat.pow_pos (by norm_num))
    rw [← hs, le_div_iff₀ hden] at hs23
    exact_mod_cast hs23
  have hm23 : (2 : ℚ) ^ 23 ≤ (m : ℚ) := by
    exact_mod_cast le_trans hf23 hfm
  refine ⟨(m : ℚ) * (2 : ℚ) ^ k, by positivity, ?_, ?_⟩
  · have e : (m : ℚ) * (2 : ℚ) ^ k - |q| = ((m : ℚ) - |q| / (2 : ℚ) ^ k) * (2 : ℚ) ^ k := by
      field_simp
    rw [e, abs_mul, abs_of_pos h2k]
    have h1 : |(m : ℚ) - abs q / (2 : ℚ) ^ k| * (2 : ℚ) ^ k ≤ 1 / 2 * (2 : ℚ) ^ k :=
      mul_le_mul_of_nonneg_right herr (le_of_lt h2k)
    have h2 : (1 : ℚ) / 2 * (2 : ℚ) ^ k ≤ 1 / 2 ^ 24 * ((m : ℚ) * (2 : ℚ) ^ k) := by
      have : (1 : ℚ) / 2 ≤ 1 / 2 ^ 24 * (m : ℚ) := by
        have h3 : (1 : ℚ) / 2 ^ 24 * (2 : ℚ) ^ 23 ≤ 1 / 2 ^ 24 * (m : ℚ) :=
          mul_le_mul_of_nonneg_left hm23 (by positivity)
        have h4 : (1 : ℚ) / 2 ^ 24 * (2 : ℚ) ^ 23 = 1 / 2 := by norm_num
        linarith
      calc (1 : ℚ) / 2 * (2 : ℚ) ^ k ≤ (1 / 2 ^ 24 * (m : ℚ)) * (2 : ℚ) ^ k :=
            mul_le_mul_of_nonneg_right this (le_of_lt h2k)
        _ = 1 / 2 ^ 24 * ((m : ℚ) * (2 : ℚ) ^ k) := by ring
    exact le_trans h1 h2
  · rw [roundToNearest_eq, if_neg h0, ← hk, ← hm, hmag]

theorem roundToNearest_err (q : ℚ) :
    |roundToNearest q - q| ≤ 1 / 2 ^ 24 * |roundToNearest q| := by
  by_cases h0 : q.num = 0
  · have hq : q = 0 := Rat.num_eq_zero.mp h0
    subst hq
    have : roundToNearest 0 = 0 := by decide!
    rw [this]
    simp
  · obtain ⟨mag, hmag0, herr, heq⟩ := roundToNearest_abs q h0
    rw [heq]
    by_cases hneg : q.num < 0
    · have hq : q < 0 := Rat.num_neg.mp hneg
      rw [if_pos hneg, abs_neg, abs_of_nonneg hmag0]
      rw [abs_of_neg hq] at herr
      have e : -mag - q = -(mag - -q) := by ring
      rw [e, abs_neg]
      exact herr
    · have hq : 0 ≤ q := Rat.num_nonneg.mp (not_lt.mp hneg)
      rw [if_neg hneg, abs_of_nonneg hmag0]
      rw [abs_of_nonneg hq] at herr
      exact herr

end Rounding

/-! ## Per-frame input handling: rotation in binary32 -/

section Rotation

theorem angleYTrace_append {F : Type} [LinearOrder F] (ops : FloatOps F) (sh : Shaders)
    (xs ys : List (Keys × F)) :
    ∀ st : ViewState F,
      angleYTrace ops sh st (xs ++ ys) =
        angleYTrace ops sh st xs ++ angleYTrace ops sh (runFrames ops sh st xs) ys := by
  induction xs with
  | nil => intro st; rfl
  | cons x xs ih =>
    intro st
    show (frame ops sh st x.1 x.2).angleY ::
        angleYTrace ops sh (frame ops sh st x.1 x.2) (xs ++ ys) = _
    rw [ih]
    rfl

theorem run_onlyA_angleZ {F : Type} [LinearOrder F] (ops : FloatOps F) (sh : Shaders)
    (ds : List F) :
    ∀ st : ViewState F,
      (runFrames ops sh st (ds.map (fun d => (onlyA, d)))).angleZ = st.angleZ := by
  induction ds with
  | nil => intro st; rfl
  | cons d rest ih =>
    intro st
    simp only [List.map_cons, runFrames_cons]
    rw [ih, (frame_onlyA ops sh st d).2]

theorem run_onlyD_angleZ {F : Type} [LinearOrder F] (ops : FloatOps F) (sh : Shaders)
    (ds : List F) :
    ∀ st : ViewState F,
      (runFrames ops sh st (ds.map (fun d => (onlyD, d)))).angleZ = st.angleZ := by
  induction ds with
  | nil => intro st; rfl
  | cons d rest ih =>
    intro st
    simp only [List.map_cons, runFrames_cons]
    rw [ih, (frame_onlyD ops sh st d).2]

theorem run_onlyA_binary32 (sh : Shaders) (ds : List ℚ) :
    ∀ st : ViewState ℚ,
      |(runFrames binary32 sh st (ds.map (fun d => (onlyA, d)))).angleY -
          (st.angleY + (ds.map (fun d => binary32.mul (rotationSpeed binary32) d)).sum)| ≤
        1 / 2 ^ 24 *
          ((angleYTrace binary32 sh st (ds.map (fun d => (onlyA, d)))).map abs).sum := by
  induction ds with
  | nil => intro st; simp [runFrames, angleYTrace]
  | cons d rest ih =>
    intro st
    simp only [List.map_cons, runFrames_cons, angleYTrace, List.sum_cons]
    have h1 := ih (frame binary32 sh st onlyA d)
    have hy : (frame binary32 sh st onlyA d).angleY =
        roundToNearest (st.angleY + binary32.mul (rotationSpeed binary32) d) :=
      (frame_onlyA binary32 sh st d).1
    have h2 := roundToNearest_err (st.angleY + binary32.mul (rotationSpeed binary32) d)
    rw [← hy] at h2
    have e : (runFrames binary32 sh (frame binary32 sh st onlyA d)
          (rest.map (fun d => (onlyA, d)))).angleY -
        (st.angleY + (binary32.mul (rotationSpeed binary32) d +
          (rest.map (fun d => binary32.mul (rotationSpeed binary32) d)).sum)) =
        ((runFrames binary32 sh (frame binary32 sh st onlyA d)
          (rest.map (fun d => (onlyA, d)))).angleY -
          ((frame binary32 sh st onlyA d).angleY +
            (rest.map (fun d => binary32.mul (rotationSpeed binary32) d)).sum)) +
        ((frame binary32 sh st onlyA d).angleY -
          (st.angleY + binary32.mul (rotationSpeed binary32) d)) := by ring
    rw [e]
    refine le_trans (abs_add _ _) ?_
    rw [mul_add]
    linarith

theorem run_onlyD_binary32 (sh : Shaders) (ds : List ℚ) :
    ∀ st : ViewState ℚ,
      |(runFrames binary32 sh st (ds.map (fun d => (onlyD, d)))).angleY -
          (st.angleY - (ds.map (fun d => binary32.mul (rotationSpeed binary32) d)).sum)| ≤
        1 / 2 ^ 24 *
          ((angleYTrace binary32 sh st (ds.map (fun d => (onlyD, d)))).map abs).sum := by
  induction ds with
  | nil => intro st; simp [runFrames, angleYTrace]
  | cons d rest ih =>
    intro st
    simp only [List.map_cons, runFrames_cons, angleYTrace, List.sum_cons]
    have h1 := ih (frame binary32 sh st onlyD d)
    have hy : (frame binary32 sh st onlyD d).angleY =
        roundToNearest (st.angleY - binary32.mul (rotationSpeed binary32) d) :=
      (frame_onlyD binary32 sh st d).1
    have h2 := roundToNearest_err (st.angleY - binary32.mul (rotationSpeed binary32) d)
    rw [← hy] at h2
    have e : (runFrames binary32 sh (frame binary32 sh st onlyD d)
          (rest.map (fun d => (onlyD, d)))).angleY -
        (st.angleY - (binary32.mul (rotationSpeed binary32) d +
          (rest.map (fun d => binary32.mul (rotationSpeed binary32) d)).sum)) =
        ((runFrames binary32 sh (frame binary32 sh st onlyD d)
          (rest.map (fun d => (onlyD, d)))).angleY -
          ((frame binary32 sh st onlyD d).angleY -
            (rest.map (fun d => binary32.mul (rotationSpeed binary32) d)).sum)) +
        ((frame binary32 sh st onlyD d).angleY -
          (st.angleY - binary32.mul (rotationSpeed binary32) d)) := by ring
    rw [e]
    refine le_trans (abs_add _ _) ?_
    rw [mul_add]
    linarith

theorem roundtrip_binary32 (sh : Shaders) (st : ViewState ℚ) (ds : List ℚ) :
    |(runFrames binary32 sh st
          (ds.map (fun d => (onlyA, d)) ++ ds.map (fun d => (onlyD, d)))).angleY - st.angleY| ≤
      1 / 2 ^ 24 *
        ((angleYTrace binary32 sh st
          (ds.map (fun d => (onlyA, d)) ++ ds.map (fun d => (onlyD, d)))).map abs).sum := by
  rw [runFrames_append, angleYTrace_append, List.map_append, List.sum_append, mul_add]
  have hA := run_onlyA_binary32 sh ds st
  have hD := run_onlyD_binary32 sh ds (runFrames binary32 sh st (ds.map (fun d => (onlyA, d))))
  have e : (runFrames binary32 sh (runFrames binary32 sh st (ds.map (fun d => (onlyA, d))))
        (ds.map (fun d => (onlyD, d)))).angleY - st.angleY =
      ((runFrames binary32 sh (runFrames binary32 sh st (ds.map (fun d => (onlyA, d))))
        (ds.map (fun d => (onlyD, d)))).angleY -
        ((runFrames binary32 sh st (ds.map (fun d => (onlyA, d)))).angleY -
          (ds.map (fun d => binary32.mul (rotationSpeed binary32) d)).sum)) +
      ((runFrames binary32 sh st (ds.map (fun d => (onlyA, d)))).angleY -
        (st.angleY + (ds.map (fun d => binary32.mul (rotationSpeed binary32) d)).sum)) := by
    ring
  rw [e]
  refine le_trans (abs_add _ _) ?_
  linarith

theorem rotationSpeed_binary32 : rotationSpeed binary32 = 2 := by decide!

theorem frame_onlyA_binary32 (sh : Shaders) (st : ViewState ℚ) (d : ℚ) :
    |(frame binary32 sh st onlyA d).angleY - (st.angleY + 2 * d)| ≤
      1 / 2 ^ 24 * (|(frame binary32 sh st onlyA d).angleY| + |roundToNearest (2 * d)|) := by
  have hy : (frame binary32 sh st onlyA d).angleY =
      roundToNearest (st.angleY + roundToNearest (2 * d)) := by
    rw [(frame_onlyA binary32 sh st d).1, rotationSpeed_binary32]
    rfl
  have h1 := roundToNearest_err (st.angleY + roundToNearest (2 * d))
  have h2 := roundToNearest_err (2 * d)
  rw [← hy] at h1
  have e : (frame binary32 sh st onlyA d).angleY - (st.angleY + 2 * d) =
      ((frame binary32 sh st onlyA d).angleY - (st.angleY + roundToNearest (2 * d))) +
        (roundToNearest (2 * d) - 2 * d) := by ring
  rw [e]
  refine le_trans (abs_add _ _) ?_
  rw [mul_add]
  linarith

theorem frame_onlyD_binary32 (sh : Shaders) (st : ViewState ℚ) (d : ℚ) :
    |(frame binary32 sh st onlyD d).angleY - (st.angleY - 2 * d)| ≤
      1 / 2 ^ 24 * (|(frame binary32 sh st onlyD d).angleY| + |roundToNearest (2 * d)|) := by
  have hy : (frame binary32 sh st onlyD d).angleY =
      roundToNearest (st.angleY - roundToNearest (2 * d)) := by
    rw [(frame_onlyD binary32 sh st d).1, rotationSpeed_binary32]
    rfl
  have h1 := roundToNearest_err (st.angleY - roundToNearest (2 * d))
  have h2 := roundToNearest_err (2 * d)
  rw [← hy] at h1
  have e : (frame binary32 sh st onlyD d).angleY - (st.angleY - 2 * d) =
      ((frame binary32 sh st onlyD d).angleY - (st.angleY - roundToNearest (2 * d))) -
        (roundToNearest (2 * d) - 2 * d) := by ring
  rw [e]
  refine le_trans (abs_sub _ _) ?_
  rw [mul_add]
  linarith

end Rotation

/-! ## Claims on `loadOBJ` -/

/-- C1: whenever `loadOBJ` returns a mesh, every element of `mesh.indices` is
strictly less than `mesh.vertices.size()` and `mesh.indices.size()` is a
multiple of 3; and it does return a mesh for every source in which each face
record has at least one corner and each face corner references a position
index and a normal index in range of the records read so far. -/
theorem loadOBJ_indices_valid {F : Type} [BEq F] (readVec3 : List Char → Vec3 F)
    (lines : List (List Char)) :
    (∀ m : Mesh F, loadOBJ readVec3 lines = some m →
      (∀ i ∈ m.indices, i < m.vertices.length) ∧ 3 ∣ m.indices.length) ∧
    (facesInRange 0 0 lines = true → ∃ m : Mesh F, loadOBJ readVec3 lines = some m) := by
  constructor
  · intro m hm
    unfold loadOBJ at hm
    cases hl : loadLines readVec3 (initLoad F) lines with
    | none => simp [hl] at hm
    | some st1 =>
      simp only [hl, Option.map_some', Option.some.injEq] at hm
      subst hm
      exact loadLines_valid readVec3 lines (initLoad F) st1 hl
        (by intro i hi; simp [initLoad] at hi) (by simp [initLoad])
  · intro h
    obtain ⟨cs, st1, _, h2, _⟩ := loadLines_refines readVec3 lines (initLoad F) h
    exact ⟨st1.mesh, by simp [loadOBJ, h2]⟩

/-- Witness of C1: a quadrilateral over four positions and one normal. -/
theorem loadOBJ_indices_valid_witness :
    facesInRange 0 0 ["v 0 0 0".toList, "v 1 0 0".toList, "v 1 1 0".toList, "v 0 1 0".toList,
      "vn 0 0 1".toList, "f 1//1 2//1 3//1 4//1".toList] = true ∧
    (∃ m : Mesh Int, loadOBJ readInts ["v 0 0 0".toList, "v 1 0 0".toList, "v 1 1 0".toList,
      "v 0 1 0".toList, "vn 0 0 1".toList, "f 1//1 2//1 3//1 4//1".toList] = some m) ∧
    ((∀ i ∈ [0, 1, 2, 0, 2, 3], i < 4) ∧ 3 ∣ [0, 1, 2, 0, 2, 3].length) :=
  ⟨by decide,
    (loadOBJ_indices_valid readInts ["v 0 0 0".toList, "v 1 0 0".toList, "v 1 1 0".toList,
      "v 0 1 0".toList, "vn 0 0 1".toList, "f 1//1 2//1 3//1 4//1".toList]).2 (by decide),
    (loadOBJ_indices_valid readInts ["v 0 0 0".toList, "v 1 0 0".toList, "v 1 1 0".toList,
      "v 0 1 0".toList, "vn 0 0 1".toList, "f 1//1 2//1 3//1 4//1".toList]).1
      { vertices := [⟨⟨0, 0, 0⟩, ⟨0, 0, 1⟩⟩, ⟨⟨1, 0, 0⟩, ⟨0, 0, 1⟩⟩, ⟨⟨1, 1, 0⟩, ⟨0, 0, 1⟩⟩,
          ⟨⟨0, 1, 0⟩, ⟨0, 0, 1⟩⟩],
        indices := [0, 1, 2, 0, 2, 3], edgeIndices := [] } (by decide)⟩

/-- C2: for every well-formed source `loadOBJ` returns a mesh whose vertex
sequence has no two equal entries, is the corner candidates deduplicated in
first-seen order, and in which any two corners that resolve to the same
position and normal pair receive the same index; in particular three corners
with the same candidate pushed into an empty mesh give one vertex and the
indices `[0, 0, 0]`. -/
theorem loadOBJ_dedup {F : Type} [BEq F] (readVec3 : List Char → Vec3 F)
    (lines : List (List Char)) (h : wellFormed readVec3 lines = true) :
    (∃ (m : Mesh F) (cs : List (Vertex F)),
      loadOBJ readVec3 lines = some m ∧ cornerList readVec3 [] [] lines = some cs ∧
      m.vertices.Pairwise (fun a b => a.eq b = false) ∧
      m.vertices = firstSeenFrom [] cs ∧
      m.indices.length = cs.length ∧
      ∀ (i j : Nat) (hi : i < cs.length) (hj : j < cs.length),
        cs.get ⟨i, hi⟩ = cs.get ⟨j, hj⟩ → m.indices[i]? = m.indices[j]?) ∧
    (∀ c : Vertex F, c.eq c = true →
      [c, c, c].foldl pushVertex (initLoad F).mesh =
        { vertices := [c], indices := [0, 0, 0], edgeIndices := [] }) := by
  simp only [wellFormed, Bool.and_eq_true] at h
  constructor
  · obtain ⟨cs, st1, h1, h2, h3⟩ := loadLines_refines readVec3 lines (initLoad F) h.1
    have hrefl : ∀ c ∈ cs, c.eq c = true :=
      cornerList_refl readVec3 lines [] [] cs h.2 (by simp) (by simp) h1
    have htr : Tracks st1.mesh cs := by
      have := foldPush_tracks cs (initLoad F).mesh [] tracks_empty hrefl
      rw [h3]
      simpa using this
    refine ⟨st1.mesh, cs, by simp [loadOBJ, h2], h1, ?_, ?_, ?_, ?_⟩
    · rw [h3]
      exact foldPush_pairwise cs _ (by simp [initLoad])
    · rw [h3, foldPush_vertices]
      simp [initLoad]
    · rw [h3, foldPush_indices_length]
      simp [initLoad]
    · intro i j hi hj hij
      exact tracks_same_index st1.mesh cs htr i j hi hj hij
  · intro c hc
    simp [pushVertex, initLoad, List.findIdx_cons, hc, sizeSub]

/-- Witness of C2: two positions, two normals and one triangle whose three
corners reference the same pair give one vertex and the indices `[0, 0, 0]`. -/
theorem loadOBJ_dedup_witness :
    wellFormed readInts ["v 1 2 3".toList, "v 4 5 6".toList, "vn 0 0 1".toList,
      "vn 0 1 0".toList, "f 1//1 1//1 1//1".toList] = true ∧
    loadOBJ readInts ["v 1 2 3".toList, "v 4 5 6".toList, "vn 0 0 1".toList,
      "vn 0 1 0".toList, "f 1//1 1//1 1//1".toList] =
      some { vertices := [⟨⟨1, 2, 3⟩, ⟨0, 0, 1⟩⟩], indices := [0, 0, 0], edgeIndices := [] } ∧
    (∃ (m : Mesh Int) (cs : List (Vertex Int)),
      loadOBJ readInts ["v 1 2 3".toList, "v 4 5 6".toList, "vn 0 0 1".toList,
        "vn 0 1 0".toList, "f 1//1 1//1 1//1".toList] = some m ∧
      cornerList readInts [] [] ["v 1 2 3".toList, "v 4 5 6".toList, "vn 0 0 1".toList,
        "vn 0 1 0".toList, "f 1//1 1//1 1//1".toList] = some cs ∧
      m.vertices.Pairwise (fun a b => a.eq b = false) ∧
      m.vertices = firstSeenFrom [] cs ∧
      m.indices.length = cs.length ∧
      ∀ (i j : Nat) (hi : i < cs.length) (hj : j < cs.length),
        cs.get ⟨i, hi⟩ = cs.get ⟨j, hj⟩ → m.indices[i]? = m.indices[j]?) :=
  ⟨by decide, by decide,
    (loadOBJ_dedup readInts ["v 1 2 3".toList, "v 4 5 6".toList, "vn 0 0 1".toList,
      "vn 0 1 0".toList, "f 1//1 1//1 1//1".toList] (by decide)).1⟩

/-- C3: for every well-formed source `loadOBJ` returns a mesh with one index
per emitted triangle corner, and (as long as the vertex count fits the
`unsigned int` index type) the vertex stored at `mesh.vertices[mesh.indices[n]]`
compares equal to the candidate vertex of the `n`-th corner. -/
theorem loadOBJ_expands {F : Type} [BEq F] (readVec3 : List Char → Vec3 F)
    (lines : List (List Char)) (h : wellFormed readVec3 lines = true) :
    ∃ (m : Mesh F) (cs : List (Vertex F)),
      loadOBJ readVec3 lines = some m ∧ cornerList readVec3 [] [] lines = some cs ∧
      m.indices.length = cs.length ∧
      (m.vertices.length ≤ 2 ^ 32 →
        ∀ (n : Nat) (hn : n < cs.length), ∃ (i : Nat) (v : Vertex F),
          m.indices[n]? = some i ∧ m.vertices[i]? = some v ∧ v.eq (cs.get ⟨n, hn⟩) = true) := by
  simp only [wellFormed, Bool.and_eq_true] at h
  obtain ⟨cs, st1, h1, h2, h3⟩ := loadLines_refines readVec3 lines (initLoad F) h.1
  have hrefl : ∀ c ∈ cs, c.eq c = true :=
    cornerList_refl readVec3 lines [] [] cs h.2 (by simp) (by simp) h1
  have htr : Tracks st1.mesh cs := by
    have := foldPush_tracks cs (initLoad F).mesh [] tracks_empty hrefl
    rw [h3]
    simpa using this
  refine ⟨st1.mesh, cs, by simp [loadOBJ, h2], h1, ?_, ?_⟩
  · rw [h3, foldPush_indices_length]
    simp [initLoad]
  · intro hsize n hn
    exact tracks_lookup st1.mesh cs htr hsize n hn

/-- Witness of C3: a quadrilateral whose fourth corner repeats the first. -/
theorem loadOBJ_expands_witness :
    wellFormed readInts ["v 0 0 0".toList, "v 1 0 0".toList, "v 1 1 0".toList,
      "vn 0 0 1".toList, "f 1//1 2//1 3//1 1//1".toList] = true ∧
    loadOBJ readInts ["v 0 0 0".toList, "v 1 0 0".toList, "v 1 1 0".toList,
      "vn 0 0 1".toList, "f 1//1 2//1 3//1 1//1".toList] =
      some { vertices := [⟨⟨0, 0, 0⟩, ⟨0, 0, 1⟩⟩, ⟨⟨1, 0, 0⟩, ⟨0, 0, 1⟩⟩, ⟨⟨1, 1, 0⟩, ⟨0, 0, 1⟩⟩],
             indices := [0, 1, 2, 0, 2, 0], edgeIndices := [] } ∧
    (∃ (m : Mesh Int) (cs : List (Vertex Int)),
      loadOBJ readInts ["v 0 0 0".toList, "v 1 0 0".toList, "v 1 1 0".toList,
        "vn 0 0 1".toList, "f 1//1 2//1 3//1 1//1".toList] = some m ∧
      cornerList readInts [] [] ["v 0 0 0".toList, "v 1 0 0".toList, "v 1 1 0".toList,
        "vn 0 0 1".toList, "f 1//1 2//1 3//1 1//1".toList] = some cs ∧
      m.indices.length = cs.length ∧
      (m.vertices.length ≤ 2 ^ 32 →
        ∀ (n : Nat) (hn : n < cs.length), ∃ (i : Nat) (v : Vertex Int),
          m.indices[n]? = some i ∧ m.vertices[i]? = some v ∧
            v.eq (cs.get ⟨n, hn⟩) = true)) :=
  ⟨by decide, by decide,
    loadOBJ_expands readInts ["v 0 0 0".toList, "v 1 0 0".toList, "v 1 1 0".toList,
      "vn 0 0 1".toList, "f 1//1 2//1 3//1 1//1".toList] (by decide)⟩

/-- C4: for a face record with `k ≥ 3` corners that all resolve, the
triangulation loop returns the mesh obtained by pushing, in order, the
candidates of the corners `(0, i, i + 1)` for `i = 1 … k − 2`; it appends
exactly `3 * (k − 2)` indices. -/
theorem triangulateFace_fan {F : Type} [BEq F] (st : LoadState F)
    (tokens : List (List Char)) (h3 : 3 ≤ tokens.length) (hsz : tokens.length < 2 ^ 64)
    (hok : ∀ t ∈ tokens,
      cornerOk st.tempPositions.length st.tempNormals.length t = true) :
    (∀ i : Nat, 1 ≤ i → i ≤ tokens.length - 2 →
      (fanIndices tokens.length)[3 * (i - 1)]? = some 0 ∧
      (fanIndices tokens.length)[3 * (i - 1) + 1]? = some i ∧
      (fanIndices tokens.length)[3 * (i - 1) + 2]? = some (i + 1)) ∧
    (fanIndices tokens.length).length = 3 * (tokens.length - 2) ∧
    ∃ (cs : List (Vertex F)) (new : List Nat),
      resolveAll st.tempPositions st.tempNormals tokens (fanIndices tokens.length) = some cs ∧
      triangulateFace st tokens = some { st with mesh := cs.foldl pushVertex st.mesh } ∧
      (cs.foldl pushVertex st.mesh).indices = st.mesh.indices ++ new ∧
      new.length = 3 * (tokens.length - 2) := by
  refine ⟨?_, fanFrom_length _ _, ?_⟩
  · intro i hi1 hi2
    obtain ⟨a, b, c⟩ := fanFrom_getElem (tokens.length - 2) 1 (i - 1) (by omega)
    unfold fanIndices
    refine ⟨a, ?_, ?_⟩
    · rw [b]; congr 1; omega
    · rw [c]; congr 1; omega
  · obtain ⟨cs, hcs⟩ := resolveAll_some st.tempPositions st.tempNormals tokens hok
      (fanIndices tokens.length) (fun idx hidx => fanIndices_lt _ idx (by omega) hidx)
    obtain ⟨new, hlen, heq⟩ := foldPush_indices_append cs st.mesh
    refine ⟨cs, new, hcs, ?_, heq, ?_⟩
    · rw [triangulateFace_eq, fan_of_faceBound tokens (by omega) hsz, hcs]
      rfl
    · rw [hlen, resolveAll_length _ _ _ _ cs hcs]
      exact fanFrom_length _ _

/-- Witness of C4: a quadrilateral with four pairwise distinct corners parsed
into an empty mesh yields 4 unique vertices and the indices
`[0, 1, 2, 0, 2, 3]`. -/
theorem triangulateFace_fan_witness :
    loadOBJ readInts ["v 0 0 0".toList, "v 1 0 0".toList, "v 1 1 0".toList, "v 0 1 0".toList,
      "vn 0 0 1".toList, "f 1//1 2//1 3//1 4//1".toList] =
      some { vertices := [⟨⟨0, 0, 0⟩, ⟨0, 0, 1⟩⟩, ⟨⟨1, 0, 0⟩, ⟨0, 0, 1⟩⟩,
               ⟨⟨1, 1, 0⟩, ⟨0, 0, 1⟩⟩, ⟨⟨0, 1, 0⟩, ⟨0, 0, 1⟩⟩],
             indices := [0, 1, 2, 0, 2, 3], edgeIndices := [] } ∧
    fanIndices 4 = [0, 1, 2, 0, 2, 3] ∧
    ∃ (cs : List (Vertex Int)) (new : List Nat),
      resolveAll [⟨0, 0, 0⟩, ⟨1, 0, 0⟩, ⟨1, 1, 0⟩, ⟨0, 1, 0⟩] [⟨0, 0, 1⟩]
        ["1//1".toList, "2//1".toList, "3//1".toList, "4//1".toList]
        (fanIndices ["1//1".toList, "2//1".toList, "3//1".toList, "4//1".toList].length) =
        some cs ∧
      triangulateFace
        { tempPositions := [⟨0, 0, 0⟩, ⟨1, 0, 0⟩, ⟨1, 1, 0⟩, ⟨0, 1, 0⟩],
          tempNormals := [⟨0, 0, 1⟩], mesh := (initLoad Int).mesh }
        ["1//1".toList, "2//1".toList, "3//1".toList, "4//1".toList] =
        some { tempPositions := [⟨0, 0, 0⟩, ⟨1, 0, 0⟩, ⟨1, 1, 0⟩, ⟨0, 1, 0⟩],
               tempNormals := [⟨0, 0, 1⟩],
               mesh := cs.foldl pushVertex (initLoad Int).mesh } ∧
      (cs.foldl pushVertex (initLoad Int).mesh).indices = (initLoad Int).mesh.indices ++ new ∧
      new.length = 3 * (["1//1".toList, "2//1".toList, "3//1".toList, "4//1".toList].length - 2) :=
  ⟨by decide, by decide,
    (triangulateFace_fan
      { tempPositions := [⟨0, 0, 0⟩, ⟨1, 0, 0⟩, ⟨1, 1, 0⟩, ⟨0, 1, 0⟩],
        tempNormals := [⟨0, 0, 1⟩], mesh := (initLoad Int).mesh }
      ["1//1".toList, "2//1".toList, "3//1".toList, "4//1".toList]
      (by decide) (by decide) (by decide)).2.2⟩

/-- C5 fails as stated: the descriptor `2147483648/1/1` is of the form
`p/t/n`, but its position index does not fit an `int`, `std::stoi` throws and
no index is resolved. -/
theorem cornerIndices_out_of_range_counterexample :
    cornerIndices "2147483648/1/1".toList = none := by
  decide

/-- C5 as amended: a corner descriptor `p/t/n` or `p//n`, where `p` and `n`
are optionally signed decimal integers of magnitude at most the largest `int`
and `t` is any text without a slash (possibly empty), resolves to the position
index `p − 1` and the normal index `n − 1`, whatever `t` is. -/
theorem cornerIndices_descriptor (negP negN : Bool) (P T N : List Char)
    (hP : P ≠ []) (hPd : ∀ c ∈ P, isDigit c = true)
    (hN : N ≠ []) (hNd : ∀ c ∈ N, isDigit c = true)
    (hT : '/' ∉ T)
    (hPr : (decValue P : Int) ≤ intMax) (hNr : (decValue N : Int) ≤ intMax)
    (hlen : (signedDigits negP P ++ '/' :: (T ++ '/' :: signedDigits negN N)).length < 2 ^ 64) :
    cornerIndices (signedDigits negP P ++ '/' :: (T ++ '/' :: signedDigits negN N)) =
      some (signedValue negP P - 1, signedValue negN N - 1) := by
  rw [cornerIndices_split _ T _ (slash_not_in_signedDigits negP P hPd) hT hlen,
    stoi_signedDigits negP P hP hPd hPr, stoi_signedDigits negN N hN hNd hNr]
  simp only [Option.some_bind, intSub_one_signedValue negP P hPr,
    intSub_one_signedValue negN N hNr]

/-- Witness of C5: `12/7/5` and `12//5` both resolve to `(11, 4)`. -/
theorem cornerIndices_descriptor_witness :
    cornerIndices "12/7/5".toList = some (11, 4) ∧
    cornerIndices "12//5".toList = some (11, 4) ∧
    cornerIndices (signedDigits false "12".toList ++
        '/' :: ("7".toList ++ '/' :: signedDigits false "5".toList)) =
      some (signedValue false "12".toList - 1, signedValue false "5".toList - 1) :=
  ⟨by decide, by decide,
    cornerIndices_descriptor false false "12".toList "7".toList "5".toList
      (by decide) (by decide) (by decide) (by decide) (by decide) (by decide) (by decide)
      (by decide)⟩

/-- C10 at its failing input: a face record with one or two corner
descriptors leaves the loader state unchanged, but for a face record with no
corner descriptor the loop bound `faceTokens.size() - 1` wraps to
`2 ^ 64 - 1`, the loop is entered and its first corner reads `faceTokens[0]`
of an empty vector: no mesh is returned. -/
theorem triangulateFace_few_corners {F : Type} [BEq F] (readVec3 : List Char → Vec3 F)
    (st : LoadState F) (t1 t2 : List Char) :
    triangulateFace st [t1] = some st ∧ triangulateFace st [t1, t2] = some st ∧
    faceBound [] = 2 ^ 64 - 1 ∧
    triangulateFace st [] = none ∧
    processLine readVec3 st ['f', ' '] = none ∧
    loadOBJ readVec3 [['f', ' ']] = none := by
  have hline : ∀ s : LoadState F, processLine readVec3 s ['f', ' '] = triangulateFace s [] := by
    intro s
    simp [processLine, splitTokens]
  refine ⟨triangulateFace_short st [t1] (by simp) (by simp),
    triangulateFace_short st [t1, t2] (by simp) (by simp), faceBound_nil,
    triangulateFace_nil st, ?_, ?_⟩
  · rw [hline, triangulateFace_nil]
  · simp [loadOBJ, loadLines, hline, triangulateFace_nil]

/-! ## Claims on the per-frame input handling -/

/-- C6: for every arithmetic in which `1.5f ≤ 40.0f`, every starting state and
every non-empty sequence of frames (any keys, any durations), the camera
distance after the last frame lies in `[1.5, 40.0]`; and on a frame where
neither `Q` nor `E` is held the distance is still the clamp of the previous
one. -/
theorem cameraDistance_clamped {F : Type} [LinearOrder F] (ops : FloatOps F) (sh : Shaders)
    (hlit : ops.lit 3 2 ≤ ops.lit 40 1) (st : ViewState F) (frames : List (Keys × F))
    (hne : frames ≠ []) :
    (ops.lit 3 2 ≤ (runFrames ops sh st frames).cameraDistance ∧
      (runFrames ops sh st frames).cameraDistance ≤ ops.lit 40 1) ∧
    (∀ (s : ViewState F) (k : Keys) (dt : F), k.keyQ = false → k.keyE = false →
      (frame ops sh s k dt).cameraDistance =
        clamp s.cameraDistance (ops.lit 3 2) (ops.lit 40 1)) := by
  constructor
  · obtain ⟨front, last, rfl⟩ : ∃ front last, frames = front ++ [last] :=
      ⟨frames.dropLast, frames.getLast hne, (List.dropLast_append_getLast hne).symm⟩
    rw [runFrames_append]
    show _ ≤ (frame ops sh _ last.1 last.2).cameraDistance ∧
      (frame ops sh _ last.1 last.2).cameraDistance ≤ _
    rw [frame_cameraDistance]
    exact clamp_bounds _ _ _ hlit
  · intro s k dt hq he
    rw [frame_cameraDistance]
    simp [handleZoom, hq, he]

/-- Witness of C6 in binary32: from the initial distance `41.569...` one frame
with no key held gives exactly `40`. -/
theorem cameraDistance_clamped_witness :
    binary32.lit 3 2 ≤ binary32.lit 40 1 ∧ [(noKeys, (0 : ℚ))] ≠ [] ∧
    ((binary32.lit 3 2 ≤
        (runFrames binary32 ⟨1, 2, 3⟩ (initView binary32 ⟨1, 2, 3⟩)
          [(noKeys, (0 : ℚ))]).cameraDistance ∧
      (runFrames binary32 ⟨1, 2, 3⟩ (initView binary32 ⟨1, 2, 3⟩)
          [(noKeys, (0 : ℚ))]).cameraDistance ≤ binary32.lit 40 1) ∧
    (∀ (s : ViewState ℚ) (k : Keys) (dt : ℚ), k.keyQ = false → k.keyE = false →
      (frame binary32 ⟨1, 2, 3⟩ s k dt).cameraDistance =
        clamp s.cameraDistance (binary32.lit 3 2) (binary32.lit 40 1))) :=
  ⟨by decide!, by simp,
    cameraDistance_clamped binary32 ⟨1, 2, 3⟩ (by decide!) (initView binary32 ⟨1, 2, 3⟩)
      [(noKeys, (0 : ℚ))] (by simp)⟩

/-- C7: a frame with only `A` (only `D`) held sets `angleY` to the float sum
(difference) of `angleY` and the float product `rotationSpeed * deltaTime`,
with `rotationSpeed = 2.0f`, and leaves `angleZ` unchanged. Frames with only
`A` held followed by frames of the same durations with only `D` held leave
`angleZ` unchanged and return `angleY` to its original value: exactly in
arithmetic without rounding, and in binary32 within floating-point tolerance,
the residue being at most `2 ^ -24` (one unit roundoff) times the sum of the
magnitudes of `angleY` after each of the frames. -/
theorem rotation_reversible {F : Type} [LinearOrder F] (ops : FloatOps F) (sh : Shaders)
    (st : ViewState F) (dt : F) {K : Type} [LinearOrderedField K] (sk : ViewState K)
    (ks : List K) (sb : ViewState ℚ) (ds : List ℚ) (d : ℚ) :
    (rotationSpeed ops = ops.lit 2 1 ∧ rotationSpeed binary32 = 2) ∧
    ((frame ops sh st onlyA dt).angleY = ops.add st.angleY (ops.mul (rotationSpeed ops) dt) ∧
      (frame ops sh st onlyA dt).angleZ = st.angleZ) ∧
    ((frame ops sh st onlyD dt).angleY = ops.sub st.angleY (ops.mul (rotationSpeed ops) dt) ∧
      (frame ops sh st onlyD dt).angleZ = st.angleZ) ∧
    ((runFrames (exactOps K) sh sk
        (ks.map (fun x => (onlyA, x)) ++ ks.map (fun x => (onlyD, x)))).angleY = sk.angleY ∧
      (runFrames (exactOps K) sh sk
        (ks.map (fun x => (onlyA, x)) ++ ks.map (fun x => (onlyD, x)))).angleZ = sk.angleZ) ∧
    (|(frame binary32 sh sb onlyA d).angleY - (sb.angleY + 2 * d)| ≤
        1 / 2 ^ 24 * (|(frame binary32 sh sb onlyA d).angleY| + |roundToNearest (2 * d)|) ∧
      |(frame binary32 sh sb onlyD d).angleY - (sb.angleY - 2 * d)| ≤
        1 / 2 ^ 24 * (|(frame binary32 sh sb onlyD d).angleY| + |roundToNearest (2 * d)|)) ∧
    (|(runFrames binary32 sh sb
          (ds.map (fun x => (onlyA, x)) ++ ds.map (fun x => (onlyD, x)))).angleY - sb.angleY| ≤
        1 / 2 ^ 24 *
          ((angleYTrace binary32 sh sb
            (ds.map (fun x => (onlyA, x)) ++ ds.map (fun x => (onlyD, x)))).map abs).sum ∧
      (runFrames binary32 sh sb
        (ds.map (fun x => (onlyA, x)) ++ ds.map (fun x => (onlyD, x)))).angleZ = sb.angleZ) := by
  refine ⟨⟨rfl, rotationSpeed_binary32⟩, frame_onlyA ops sh st dt, frame_onlyD ops sh st dt,
    ?_, ⟨frame_onlyA_binary32 sh sb d, frame_onlyD_binary32 sh sb d⟩,
    ⟨roundtrip_binary32 sh sb ds, ?_⟩⟩
  · rw [runFrames_append]
    obtain ⟨hy, hz⟩ := run_onlyD_exact sh ks (runFrames (exactOps K) sh sk
      (ks.map (fun x => (onlyA, x))))
    obtain ⟨hy2, hz2⟩ := run_onlyA_exact sh ks sk
    rw [hy, hz, hy2, hz2]
    exact ⟨by ring, rfl⟩
  · rw [runFrames_append, run_onlyD_angleZ, run_onlyA_angleZ]

/-- Instance of C7 in binary32: from the initial state, three frames of
`1 / 64` s with only `A` held and three with only `D` held; `angleY` takes the
values `1/32, 2/32, 3/32, 2/32, 1/32, 0`, so the tolerance is
`2 ^ -24 * 9 / 32`, and the residue here is `0`. -/
theorem rotation_reversible_witness :
    |(runFrames binary32 ⟨1, 2, 3⟩ (initView binary32 ⟨1, 2, 3⟩)
          ([mkRat 1 64, mkRat 1 64, mkRat 1 64].map (fun x => (onlyA, x)) ++
            [mkRat 1 64, mkRat 1 64, mkRat 1 64].map (fun x => (onlyD, x)))).angleY -
        (initView binary32 ⟨1, 2, 3⟩).angleY| ≤
      1 / 2 ^ 24 *
        ((angleYTrace binary32 ⟨1, 2, 3⟩ (initView binary32 ⟨1, 2, 3⟩)
          ([mkRat 1 64, mkRat 1 64, mkRat 1 64].map (fun x => (onlyA, x)) ++
            [mkRat 1 64, mkRat 1 64, mkRat 1 64].map (fun x => (onlyD, x)))).map abs).sum ∧
    angleYTrace binary32 ⟨1, 2, 3⟩ (initView binary32 ⟨1, 2, 3⟩)
        ([mkRat 1 64, mkRat 1 64, mkRat 1 64].map (fun x => (onlyA, x)) ++
          [mkRat 1 64, mkRat 1 64, mkRat 1 64].map (fun x => (onlyD, x))) =
      [mkRat 1 32, mkRat 2 32, mkRat 3 32, mkRat 2 32, mkRat 1 32, 0] :=
  ⟨(rotation_reversible binary32 ⟨1, 2, 3⟩ (initView binary32 ⟨1, 2, 3⟩) 0
      (initView (exactOps ℚ) ⟨1, 2, 3⟩) [] (initView binary32 ⟨1, 2, 3⟩)
      [mkRat 1 64, mkRat 1 64, mkRat 1 64] 0).2.2.2.2.2.1,
    by decide!⟩

/-- C8 fails in binary32: from the initial state (green `0`), a frame with only
`G` held and then five frames with only `T` held leave the green channel at
`13421772 / 2 ^ 28 = 0.0499999970...`, which is neither `0.05` nor the float
`0.05f = 13421773 / 2 ^ 28` nor five times the float `0.01f`. -/
theorem green_increase_binary32_counterexample :
    (initView binary32 ⟨1, 2, 3⟩).greenT = 0 ∧
    (runFrames binary32 ⟨1, 2, 3⟩ (initView binary32 ⟨1, 2, 3⟩)
        [(onlyG, mkRat 1 64), (onlyT, mkRat 1 64), (onlyT, mkRat 1 64), (onlyT, mkRat 1 64),
         (onlyT, mkRat 1 64), (onlyT, mkRat 1 64)]).greenT = mkRat 13421772 (2 ^ 28) ∧
    mkRat 13421772 (2 ^ 28) ≠ 0 + mkRat 5 100 ∧
    mkRat 13421772 (2 ^ 28) ≠ binary32.add 0 (binary32.lit 5 100) ∧
    mkRat 13421772 (2 ^ 28) ≠ 0 + 5 * binary32.lit 1 100 := by
  decide!

/-- C8 as amended: a frame with only `G` held selects the channel `G` and
changes no channel; `n` following frames with only `T` held apply `n` float
additions of `0.01f` to the channel named by `currentObjectColourToggle` and
leave the two other channels unchanged, whatever the frame durations; in
arithmetic without rounding the selected channel has grown by `n * 0.01`. -/
theorem colour_frames {F : Type} [LinearOrder F] (ops : FloatOps F) (sh : Shaders)
    (st : ViewState F) (dt : F) (dts : List F) {K : Type} [LinearOrderedField K]
    (sk : ViewState K) (dks : List K) :
    ((frame ops sh st onlyG dt).currentObjectColourToggle = 'G' ∧
      (frame ops sh st onlyG dt).redT = st.redT ∧
      (frame ops sh st onlyG dt).greenT = st.greenT ∧
      (frame ops sh st onlyG dt).blueT = st.blueT) ∧
    (st.currentObjectColourToggle = 'R' →
      (runFrames ops sh st (dts.map (fun d => (onlyT, d)))).redT =
        (fun c => ops.add c (ops.lit 1 100))^[dts.length] st.redT ∧
      (runFrames ops sh st (dts.map (fun d => (onlyT, d)))).greenT = st.greenT ∧
      (runFrames ops sh st (dts.map (fun d => (onlyT, d)))).blueT = st.blueT) ∧
    (st.currentObjectColourToggle = 'G' →
      (runFrames ops sh st (dts.map (fun d => (onlyT, d)))).greenT =
        (fun c => ops.add c (ops.lit 1 100))^[dts.length] st.greenT ∧
      (runFrames ops sh st (dts.map (fun d => (onlyT, d)))).redT = st.redT ∧
      (runFrames ops sh st (dts.map (fun d => (onlyT, d)))).blueT = st.blueT) ∧
    (st.currentObjectColourToggle = 'B' →
      (runFrames ops sh st (dts.map (fun d => (onlyT, d)))).blueT =
        (fun c => ops.add c (ops.lit 1 100))^[dts.length] st.blueT ∧
      (runFrames ops sh st (dts.map (fun d => (onlyT, d)))).redT = st.redT ∧
      (runFrames ops sh st (dts.map (fun d => (onlyT, d)))).greenT = st.greenT) ∧
    (sk.currentObjectColourToggle = 'G' →
      (runFrames (exactOps K) sh sk (dks.map (fun d => (onlyT, d)))).greenT =
        sk.greenT + dks.length * (1 / 100) ∧
      (runFrames (exactOps K) sh sk (dks.map (fun d => (onlyT, d)))).redT = sk.redT ∧
      (runFrames (exactOps K) sh sk (dks.map (fun d => (onlyT, d)))).blueT = sk.blueT) := by
  obtain ⟨_, hr, hg, hb⟩ := run_onlyT ops sh dts st
  refine ⟨frame_onlyG ops sh st dt, hr, hg, hb, ?_⟩
  intro h
  obtain ⟨_, _, hg2, _⟩ := run_onlyT (exactOps K) sh dks sk
  obtain ⟨a, b, c⟩ := hg2 h
  refine ⟨?_, b, c⟩
  rw [a, iterate_add_exact]
  simp [exactOps]

/-- Witness of the amended C8 in binary32: the state after the `G` frame has
the toggle `G`, and five `T` frames give `13421772 / 2 ^ 28`; in exact
arithmetic over the rationals they add `5 / 100`. -/
theorem colour_frames_witness :
    (frame binary32 ⟨1, 2, 3⟩ (initView binary32 ⟨1, 2, 3⟩) onlyG 0).currentObjectColourToggle
      = 'G' ∧
    (frame (exactOps ℚ) ⟨1, 2, 3⟩ (initView (exactOps ℚ) ⟨1, 2, 3⟩) onlyG
      0).currentObjectColourToggle = 'G' ∧
    (runFrames binary32 ⟨1, 2, 3⟩ (frame binary32 ⟨1, 2, 3⟩ (initView binary32 ⟨1, 2, 3⟩) onlyG 0)
        ([0, 0, 0, 0, 0].map (fun d => (onlyT, d)))).greenT =
      (fun c => binary32.add c (binary32.lit 1 100))^[5]
        (frame binary32 ⟨1, 2, 3⟩ (initView binary32 ⟨1, 2, 3⟩) onlyG 0).greenT ∧
    (runFrames (exactOps ℚ) ⟨1, 2, 3⟩
        (frame (exactOps ℚ) ⟨1, 2, 3⟩ (initView (exactOps ℚ) ⟨1, 2, 3⟩) onlyG 0)
        ([0, 0, 0, 0, 0].map (fun d => (onlyT, d)))).greenT =
      (frame (exactOps ℚ) ⟨1, 2, 3⟩ (initView (exactOps ℚ) ⟨1, 2, 3⟩) onlyG 0).greenT +
        ([0, 0, 0, 0, 0] : List ℚ).length * (1 / 100) :=
  have hb : (frame binary32 ⟨1, 2, 3⟩ (initView binary32 ⟨1, 2, 3⟩) onlyG
      0).currentObjectColourToggle = 'G' :=
    (frame_onlyG binary32 ⟨1, 2, 3⟩ (initView binary32 ⟨1, 2, 3⟩) 0).1
  have he : (frame (exactOps ℚ) ⟨1, 2, 3⟩ (initView (exactOps ℚ) ⟨1, 2, 3⟩) onlyG
      0).currentObjectColourToggle = 'G' :=
    (frame_onlyG (exactOps ℚ) ⟨1, 2, 3⟩ (initView (exactOps ℚ) ⟨1, 2, 3⟩) 0).1
  have key := colour_frames binary32 ⟨1, 2, 3⟩
    (frame binary32 ⟨1, 2, 3⟩ (initView binary32 ⟨1, 2, 3⟩) onlyG 0) 0 [0, 0, 0, 0, 0]
    (frame (exactOps ℚ) ⟨1, 2, 3⟩ (initView (exactOps ℚ) ⟨1, 2, 3⟩) onlyG 0) [0, 0, 0, 0, 0]
  ⟨hb, he, (key.2.2.1 hb).1, (key.2.2.2.2 he).1⟩

/-- C9: the initial state has the Phong program and shininess `32.0`; a frame
in which none of `V`, `B`, `N` is held leaves `currentShader` and `shininess`
unchanged; a frame in which exactly one of them is held selects that key's
program and default shininess (`V`: `mainShader`, `32.0`; `B`:
`blinnPhongShaderAlt`, `45.0`; `N`: `gouraudShadingAlt`, `20.0`); and whatever
the three shader keys are, `angleY`, `angleZ` and `cameraDistance` after the
frame are those of the same snapshot with the shader keys released. -/
theorem shader_selection {F : Type} [LinearOrder F] (ops : FloatOps F) (sh : Shaders)
    (st : ViewState F) (k : Keys) (dt : F) :
    ((initView ops sh).currentShader = sh.mainShader ∧
      (initView ops sh).shininess = ops.lit 32 1) ∧
    (k.keyV = false → k.keyB = false → k.keyN = false →
      (frame ops sh st k dt).currentShader = st.currentShader ∧
      (frame ops sh st k dt).shininess = st.shininess) ∧
    (k.keyV = true → k.keyB = false → k.keyN = false →
      (frame ops sh st k dt).currentShader = sh.mainShader ∧
      (frame ops sh st k dt).shininess = ops.lit 32 1) ∧
    (k.keyV = false → k.keyB = true → k.keyN = false →
      (frame ops sh st k dt).currentShader = sh.blinnPhongShaderAlt ∧
      (frame ops sh st k dt).shininess = ops.lit 45 1) ∧
    (k.keyV = false → k.keyB = false → k.keyN = true →
      (frame ops sh st k dt).currentShader = sh.gouraudShadingAlt ∧
      (frame ops sh st k dt).shininess = ops.lit 20 1) ∧
    ((frame ops sh st k dt).angleY =
        (frame ops sh st { k with keyV := false, keyB := false, keyN := false } dt).angleY ∧
      (frame ops sh st k dt).angleZ =
        (frame ops sh st { k with keyV := false, keyB := false, keyN := false } dt).angleZ ∧
      (frame ops sh st k dt).cameraDistance =
        (frame ops sh st { k with keyV := false, keyB := false, keyN := false }
          dt).cameraDistance) := by
  obtain ⟨hs, hn⟩ := frame_shader ops sh st k dt
  refine ⟨⟨rfl, rfl⟩, ?_, ?_, ?_, ?_, ?_⟩
  · intro hv hb hN
    rw [hs, hn]
    simp [handleShader, hv, hb, hN]
  · intro hv hb hN
    rw [hs, hn]
    simp [handleShader, hv, hb, hN]
  · intro hv hb hN
    rw [hs, hn]
    simp [handleShader, hv, hb, hN]
  · intro hv hb hN
    rw [hs, hn]
    simp [handleShader, hv, hb, hN]
  · simp only [frame_angleY, frame_angleZ, frame_cameraDistance]
    simp [handleRotation, handleZoom]

/-- Witness of C9 in binary32: from the initial state a frame with only `B`
held selects the Blinn-Phong program with shininess `45`. -/
theorem shader_selection_witness :
    ({ noKeys with keyB := true } : Keys).keyV = false ∧
    ({ noKeys with keyB := true } : Keys).keyB = true ∧
    ({ noKeys with keyB := true } : Keys).keyN = false ∧
    (frame binary32 ⟨1, 2, 3⟩ (initView binary32 ⟨1, 2, 3⟩) { noKeys with keyB := true }
      (mkRat 1 64)).currentShader = 2 ∧
    (frame binary32 ⟨1, 2, 3⟩ (initView binary32 ⟨1, 2, 3⟩) { noKeys with keyB := true }
      (mkRat 1 64)).shininess = binary32.lit 45 1 :=
  ⟨rfl, rfl, rfl,
    (shader_selection binary32 ⟨1, 2, 3⟩ (initView binary32 ⟨1, 2, 3⟩)
      { noKeys with keyB := true } (mkRat 1 64)).2.2.2.1 rfl rfl rfl⟩

end Teacup
